import Mathlib

/-!
Shallow embedding of `dgp/utils/visualization.py` (visualization helpers:
image mosaic, 2D box rendering, point-cloud-on-image rendering, and the
bird's-eye-view canvas), together with theorems settling the frozen claims.

Conventions of the embedding:
* Python/numpy floats are idealized as rationals (`ℚ`); `astype(int)`,
  `astype(np.int32)` and Python `int(...)` all truncate toward zero, which is
  `truncQ` below.
* An image is a height, a width, and a pixel function; drawing routines that
  mutate a buffer in place are modelled as functions returning the buffer's
  new state.  Fallible code (Python `assert`, numpy `IndexError`, ...)
  returns `Except String _`.
* The external collaborators that the source treats as black boxes
  (OpenCV drawing primitives, `cv2.resize` sampling, `matplotlib` colormaps,
  `np.percentile`, the `dgp` camera) are passed in as explicit parameters or
  modelled by their documented contract; everything else is translated
  directly from the source.
-/

namespace DGPViz

/-- An RGB color triple, as the three 8-bit channel values of a pixel. -/
abbrev Color := ℕ × ℕ × ℕ

def COLOR_RED : Color := (255, 0, 0)

def COLOR_GREEN : Color := (0, 255, 0)

def COLOR_BLUE : Color := (0, 0, 255)

def COLOR_GRAY : Color := (100, 100, 100)

def COLOR_DARKGRAY : Color := (50, 50, 50)

def COLOR_WHITE : Color := (255, 255, 255)

/-- Truncation of a rational toward zero: the semantics of Python `int(...)`
and of numpy `astype(int)` / `astype(np.int32)` on a float value. -/
def truncQ (q : ℚ) : ℤ :=
  Int.sign q.num * ((q.num.natAbs / q.den : ℕ) : ℤ)

/-- The ceiling of a rational, as computed by `np.ceil(...).astype(int)`. -/
def ceilQ (q : ℚ) : ℤ := ⌈q⌉

/-- The value of `np.ceil(np.sqrt(n)).astype(int)` for a natural `n`:
the least `k` with `n ≤ k * k`. -/
def ceilSqrtNat (n : ℕ) : ℕ :=
  if Nat.sqrt n * Nat.sqrt n = n then Nat.sqrt n else Nat.sqrt n + 1

/-- A dense `H × W` image of RGB pixels; `px r c` is the pixel at row `r`,
column `c`. -/
structure Image where
  H : ℕ
  W : ℕ
  px : ℕ → ℕ → Color

/-- The all-black image of the given size (`np.zeros`, `np.zeros_like`). -/
def Image.zeros (h w : ℕ) : Image := ⟨h, w, fun _ _ => (0, 0, 0)⟩

instance : Inhabited Image := ⟨Image.zeros 0 0⟩

/-- Overwrite the single pixel at row `r`, column `c`. -/
def Image.setPx (im : Image) (r c : ℕ) (col : Color) : Image :=
  ⟨im.H, im.W, fun r0 c0 => if r0 = r ∧ c0 = c then col else im.px r0 c0⟩

/-- Overwrite every pixel inside a footprint with one color.  This is the
shape shared by all the OpenCV drawing primitives the source calls: they
write the stroke color, they never blend. -/
def overwrite (footprint : ℕ → ℕ → Bool) (col : Color) (im : Image) : Image :=
  ⟨im.H, im.W, fun r c => if footprint r c then col else im.px r c⟩

/-- Draw a list of items over an image, one overwriting pass per item, in
list order (later items paint over earlier ones). -/
def drawOver (fp : α → ℕ → ℕ → Bool) (colOf : α → Color) (l : List α) (im : Image) : Image :=
  l.foldl (fun acc a => overwrite (fp a) (colOf a) acc) im

/-- Channel-wise maximum of two colors (one pixel of `np.maximum`). -/
def maxC (a b : Color) : Color := (max a.1 b.1, max a.2.1 b.2.1, max a.2.2 b.2.2)

/-- Pointwise `np.maximum` of two images of equal shape. -/
def maxImg (a b : Image) : Image := ⟨b.H, b.W, fun r c => maxC (a.px r c) (b.px r c)⟩

/-- Horizontal concatenation of two images of equal height (`np.hstack`). -/
def hconcat (a b : Image) : Image :=
  ⟨a.H, a.W + b.W, fun r c => if c < a.W then a.px r c else b.px r (c - a.W)⟩

/-- Vertical concatenation of two images of equal width (`np.vstack`). -/
def vconcat (a b : Image) : Image :=
  ⟨a.H + b.H, a.W, fun r c => if r < a.H then a.px r c else b.px (r - a.H) c⟩

/-- `np.hstack` over a non-empty list (the source only stacks non-empty
rows; the empty case never reaches `np.hstack`). -/
def hstackList : List Image → Image
  | [] => ⟨0, 0, fun _ _ => (0, 0, 0)⟩
  | x :: xs => xs.foldl hconcat x

/-- `np.vstack` over a non-empty list. -/
def vstackList : List Image → Image
  | [] => ⟨0, 0, fun _ _ => (0, 0, 0)⟩
  | x :: xs => xs.foldl vconcat x

/-- Model of the external `cv2.resize(im, dsize=(dW, dH))` contract: the
output has exactly `dH` rows and `dW` columns, sampled from the input. -/
def cvResize (dW dH : ℕ) (im : Image) : Image :=
  ⟨dH, dW, fun r c => im.px (r * im.H / dH) (c * im.W / dW)⟩

/-- `cv2.resize` rejects an empty `dsize`; a zero target dimension (from a
zero or negative scale factor) raises. -/
def cvResizeE (dW dH : ℕ) (im : Image) : Except String Image :=
  if dW = 0 ∨ dH = 0 then .error "cv2.resize: empty dsize" else .ok (cvResize dW dH im)

/-- `cv2.copyMakeBorder(im, p, p, p, p, cv2.BORDER_CONSTANT, 0)`: pad by `p`
pixels of black on all four sides. -/
def cvCopyMakeBorder (p : ℕ) (im : Image) : Image :=
  ⟨im.H + 2 * p, im.W + 2 * p, fun r c =>
    if p ≤ r ∧ r < p + im.H ∧ p ≤ c ∧ c < p + im.W then im.px (r - p) (c - p)
    else (0, 0, 0)⟩

/-- The start indices enumerated by Python `range(0, len, step)`: for a
positive step there are `⌈len / step⌉` of them; for a step `< 0` (and a
nonnegative stop) the range is empty.  (`step = 0` cannot reach this point
in `mosaic`: a falsy grid width was already replaced by the default.) -/
def pySliceStarts (len : ℕ) (step : ℤ) : List ℕ :=
  if 0 < step then (List.range ((len + step.toNat - 1) / step.toNat)).map (· * step.toNat)
  else []

/-- Line 67 of the source: `grid_width = grid_width if grid_width else
np.ceil(np.sqrt(N)).astype(int)`.  Python truthiness: `None` *and `0`* both
fall to the default. -/
def mosaicGridWidth (grid_width : Option ℤ) (N : ℕ) : ℤ :=
  match grid_width with
  | some g => if g = 0 then (ceilSqrtNat N : ℤ) else g
  | none => (ceilSqrtNat N : ℤ)

/-- Line 68 of the source: `grid_height = np.ceil(N * 1. / grid_width).astype(np.int)`. -/
def mosaicGridHeight (gw : ℤ) (N : ℕ) : ℤ := ceilQ ((N : ℚ) / (gw : ℚ))

/-- The tile list built by the loop at lines 72-79: items `j < N` are resized
to the target shape; the remaining grid cells get `np.zeros_like` of the
previous tile, whose shape is always the target shape. -/
def mosaicTiles (items : List Image) (tW tH : ℕ) (count : ℕ) : Except String (List Image) :=
  (List.range count).mapM fun j =>
    if j < items.length then cvResizeE tW tH (items.getD j (Image.zeros 0 0))
    else .ok (Image.zeros tH tW)

/-- Line 84 of the source: one horizontal stack per slice start of
`range(0, len(mosaic_items), grid_width)`, each over the Python slice
`mosaic_items[j:j + grid_width]`. -/
def mosaicRows (padded : List Image) (gw : ℤ) : List Image :=
  (pySliceStarts padded.length gw).map fun j => hstackList ((padded.drop j).take gw.toNat)

/-- Lines 85-86 of the source:
`np.vstack(hstack) if len(hstack) > 1 else hstack[0]`; indexing an empty
row list raises. -/
def mosaicAssemble : List Image → Except String Image
  | [] => .error "IndexError: list index out of range"
  | [r] => .ok r
  | r1 :: r2 :: rs => .ok (vstackList (r1 :: r2 :: rs))

/-- `mosaic(items, scale, pad, grid_width)`, lines 42-87 of the source. -/
def mosaic (items : List Image) (scale : ℚ) (pad : ℕ) (grid_width : Option ℤ) :
    Except String Image :=
  if items.length = 0 then .error "No items to mosaic!"
  else
    let N := items.length
    let gw := mosaicGridWidth grid_width N
    let gh := mosaicGridHeight gw N
    let tW := (truncQ ((items.headI.W : ℚ) * scale)).toNat
    let tH := (truncQ ((items.headI.H : ℚ) * scale)).toNat
    match mosaicTiles items tW tH (gw * gh).toNat with
    | .error e => .error e
    | .ok tiles => mosaicAssemble (mosaicRows (tiles.map (cvCopyMakeBorder pad)) gw)

/-- A 3D point `(x, y, z)`. -/
abbrev Vec3 := ℚ × ℚ × ℚ

/-- A 2D (pixel-space) point `(u, v)`. -/
abbrev Vec2 := ℚ × ℚ

/-- Modelled from the spec: `dgp.utils.camera.Camera` is not part of this
fragment.  The spec fixes only its contract: an extrinsic transform taking
world points to the camera frame (`camera.p_cw * Xw`), and a projection
taking camera-frame 3D points to 2D pixel coordinates that is built purely
from the intrinsic matrix `K` (`Camera(K=camera.K).project`). -/
structure Camera where
  p_cw : Vec3 → Vec3
  projK : Vec3 → Vec2

/-- Resolution of one numpy index on an axis of the given size: a negative
index wraps once; anything still out of `[0, size)` raises `IndexError`. -/
def npIndex (size : ℕ) (i : ℤ) : Except String ℕ :=
  let j := if i < 0 then i + size else i
  if 0 ≤ j ∧ j < size then .ok j.toNat else .error "IndexError"

/-- One checked raster write `im[r, c] = col` with numpy index semantics. -/
def npWrite (im : Image) (r c : ℤ) (col : Color) : Except String Image := do
  let r' ← npIndex im.H r
  let c' ← npIndex im.W c
  .ok (im.setPx r' c' col)

/-- The scatter assignment `im[uv[:, 1], uv[:, 0]] = colors` (row index is
the second coordinate), truncating the float coordinates to integers and
checking every index like numpy does. -/
def scatterChecked (im : Image) (l : List (Vec2 × Color)) : Except String Image :=
  l.foldlM (fun acc x => npWrite acc (truncQ x.1.2) (truncQ x.1.1) x.2) im

/-- The same scatter assignment with the bounds checks elided; it agrees
with `scatterChecked` whenever every index is in range. -/
def scatterU (im : Image) (l : List (Vec2 × Color)) : Image :=
  l.foldl (fun acc x => acc.setPx (truncQ x.1.2).toNat (truncQ x.1.1).toNat x.2) im

/-- Line 172 of the source, for one point:
`np.logical_and.reduce([(uv >= 0).all(axis=1), uv[:, 0] < W, uv[:, 1] < H, z_c > 0])`. -/
def pointcloudInView (W H : ℕ) (x : Vec2 × (Color × ℚ)) : Bool :=
  decide (0 ≤ x.1.1 ∧ 0 ≤ x.1.2) && decide (x.1.1 < (W : ℚ)) &&
    decide (x.1.2 < (H : ℚ)) && decide (0 < x.2.2)

/-- Lines 160-167 of `render_pointcloud_on_image`: camera-frame transform,
intrinsic projection, inverse-depth colorization.  `cmap` is the external
matplotlib colormap (already scaled to 8-bit), `percentileFn` the external
`np.percentile(·, percentile)`.  The result pairs each projected point with
its color and camera-frame depth. -/
def pointcloudPts (cmap : ℚ → Color) (percentileFn : List ℚ → ℚ) (camera : Camera)
    (Xw : List Vec3) : List (Vec2 × (Color × ℚ)) :=
  let Xc := Xw.map camera.p_cw
  let uv := Xc.map camera.projK
  let z_c := Xc.map fun p => p.2.2
  let zinv_c := z_c.map fun z => 1 / (z + 1 / 1000000)
  let zinv_n := zinv_c.map fun x => x / percentileFn zinv_c
  let colors := zinv_n.map fun x => cmap (min (max x 0) 1)
  uv.zip (colors.zip z_c)

/-- The points retained by the `in_view` mask of lines 172-173. -/
def pointcloudKept (cmap : ℚ → Color) (percentileFn : List ℚ → ℚ) (W H : ℕ)
    (camera : Camera) (Xw : List Vec3) : List (Vec2 × (Color × ℚ)) :=
  (pointcloudPts cmap percentileFn camera Xw).filter (pointcloudInView W H)

/-- The overlay canvas of lines 171-174: a zero image of the input's shape
with each retained point's color written at its truncated pixel location. -/
def pointcloudOverlay (cmap : ℚ → Color) (percentileFn : List ℚ → ℚ) (W H : ℕ)
    (camera : Camera) (Xw : List Vec3) : Image :=
  scatterU (Image.zeros H W)
    ((pointcloudKept cmap percentileFn W H camera Xw).map fun x => (x.1, x.2.1))

/-- The 5 × 5 window offsets of `cv2.dilate(vis, np.ones((5, 5)))`. -/
def win5 : List (ℤ × ℤ) :=
  (List.range 5).flatMap fun i => (List.range 5).map fun j => ((i : ℤ) - 2, (j : ℤ) - 2)

/-- Morphological dilation by a 5 × 5 structuring element: each output pixel
is the channel-wise maximum over the in-bounds part of its window. -/
def dilate5 (im : Image) : Image :=
  ⟨im.H, im.W, fun r c =>
    win5.foldl (fun acc d =>
      let r' := (r : ℤ) + d.1
      let c' := (c : ℤ) + d.2
      if 0 ≤ r' ∧ r' < (im.H : ℤ) ∧ 0 ≤ c' ∧ c' < (im.W : ℤ) then
        maxC acc (im.px r'.toNat c'.toNat)
      else acc) (0, 0, 0)⟩

/-- `render_pointcloud_on_image(img, camera, Xw)`, lines 133-178.  The
source never assigns into `img`: it builds a fresh overlay `vis`, dilates
it, and returns the freshly allocated composite `np.maximum(vis, img)`.
`np.percentile` raises on an empty input, hence the emptiness guard. -/
def render_pointcloud_on_image (cmap : ℚ → Color) (percentileFn : List ℚ → ℚ)
    (img : Image) (camera : Camera) (Xw : List Vec3) : Except String Image :=
  if Xw.isEmpty then .error "np.percentile: empty input"
  else
    match scatterChecked (Image.zeros img.H img.W)
        ((pointcloudKept cmap percentileFn img.W img.H camera Xw).map fun x => (x.1, x.2.1)) with
    | .error e => .error e
    | .ok vis => .ok (maxImg (dilate5 vis) img)

/-- The caller's image buffer after `render_pointcloud_on_image` returns.
The source reads `img` (its shape, `np.zeros_like(img)`, and
`np.maximum(vis, img)`, which both allocate new arrays) but contains no
statement that writes into it, so the caller's buffer is unchanged. -/
def render_pointcloud_img_after (img : Image) (_camera : Camera) (_Xw : List Vec3) : Image :=
  img

/-- The bird's-eye-view canvas: its configuration and its raster. -/
structure BEVImage where
  metric_width : ℚ
  metric_height : ℚ
  pixels_per_meter : ℚ
  xaxis : ℕ
  yaxis : ℕ
  center_pixel : ℤ × ℤ
  data : Image

/-- Selection of one coordinate of a point, `p[i]` (the renderers only ever
reach this with a checked `i < 3`). -/
def axisVal (p : Vec3) : ℕ → ℚ
  | 0 => p.1
  | 1 => p.2.1
  | 2 => p.2.2
  | _ => 0

/-- `BEVImage.__init__`, lines 205-222.  `circleFp center radius` is the
footprint of the external `cv2.circle` range-ring stroke.  Besides the
axis assertion, the two failure modes of the Python body are modelled:
`np.zeros` rejects a negative dimension and `// 0` raises. -/
def BEVImage.init (circleFp : ℤ × ℤ → ℤ → ℕ → ℕ → Bool)
    (metric_width metric_height pixels_per_meter : ℚ)
    (polar_step_size_meters : ℕ) (xaxis yaxis : ℕ) : Except String BEVImage :=
  if xaxis = yaxis then .error "Provide different x and y axis coordinates"
  else
    let Wpx := truncQ (metric_width * pixels_per_meter)
    let Hpx := truncQ (metric_height * pixels_per_meter)
    let center := (Int.fdiv Wpx 2, Int.fdiv Hpx 2)
    if Wpx < 0 ∨ Hpx < 0 then .error "ValueError: negative dimensions are not allowed"
    else if polar_step_size_meters = 0 then .error "ZeroDivisionError"
    else
      let base := Image.zeros Hpx.toNat Wpx.toNat
      let nIdx := Int.fdiv (truncQ (max metric_width metric_height)) (polar_step_size_meters : ℤ)
      let data := drawOver
        (fun k : ℕ => circleFp center
          (truncQ (((k : ℚ) + 1) * (polar_step_size_meters : ℚ) * pixels_per_meter)))
        (fun _ => COLOR_DARKGRAY) (List.range (nIdx - 1).toNat) base
      .ok ⟨metric_width, metric_height, pixels_per_meter, xaxis, yaxis, center, data⟩

/-- Lines 237-239 (and 270-274), for one point: select the two configured
axes, scale by pixels-per-meter, offset by the center pixel, and flip the
vertical pixel axis. -/
def bevProj (bev : BEVImage) (p : Vec3) : Vec2 :=
  ((bev.center_pixel.1 : ℚ) + axisVal p bev.xaxis * bev.pixels_per_meter,
   (bev.center_pixel.2 : ℚ) - axisVal p bev.yaxis * bev.pixels_per_meter)

/-- Line 242 of the source, for one point:
`np.logical_and.reduce([(pc2d >= 0).all(axis=1), pc2d[:, 0] < W, pc2d[:, 1] < H])`. -/
def bevInView (W H : ℕ) (uv : Vec2) : Bool :=
  decide (0 ≤ uv.1 ∧ 0 ≤ uv.2) && decide (uv.1 < (W : ℚ)) && decide (uv.2 < (H : ℚ))

/-- `BEVImage.render_point_cloud`, lines 227-244.  `point_cloud[:, xaxis]`
raises `IndexError` for an axis index outside `{0, 1, 2}`; retained points
get the value 128 written to all three channels of their pixel. -/
def BEVImage.render_point_cloud (bev : BEVImage) (point_cloud : List Vec3) :
    Except String BEVImage :=
  if bev.xaxis < 3 ∧ bev.yaxis < 3 then
    let pc2d := point_cloud.map (bevProj bev)
    let kept := pc2d.filter (bevInView bev.data.W bev.data.H)
    match scatterChecked bev.data (kept.map fun uv => (uv, ((128, 128, 128) : Color))) with
    | .ok d =>
      .ok ⟨bev.metric_width, bev.metric_height, bev.pixels_per_meter, bev.xaxis, bev.yaxis,
        bev.center_pixel, d⟩
    | .error e => .error e
  else .error "IndexError"

/-- Lines 112-116 of the source: the four integer corners
top-left, top-right, bottom-right, bottom-left of an `(x, y, w, h)` box. -/
def bbox2dCorners (b : ℚ × ℚ × ℚ × ℚ) : List (ℤ × ℤ) :=
  [(truncQ b.1, truncQ b.2.1),
   (truncQ (b.1 + b.2.2.1), truncQ b.2.1),
   (truncQ (b.1 + b.2.2.1), truncQ (b.2.1 + b.2.2.2)),
   (truncQ b.1, truncQ (b.2.1 + b.2.2.2))]

/-- Lines 124-129 of the source: `if texts:` skips a `None` *or empty* list;
a non-empty list must match the box count, and each label is painted white
at its box's first corner. -/
def addTexts (glyph : String → ℤ × ℤ → ℕ → ℕ → Bool) (boxes : List (List (ℤ × ℤ)))
    (texts : Option (List String)) (im : Image) : Except String Image :=
  match texts with
  | none => .ok im
  | some ts =>
    if ts.isEmpty then .ok im
    else if boxes.length = ts.length then
      .ok (drawOver (fun p : String × (ℤ × ℤ) => glyph p.1 p.2) (fun _ => COLOR_WHITE)
        (ts.zip (boxes.map fun b => b.headI)) im)
    else .error "len(boxes) != len(texts)"

/-- `render_bbox2d_on_image(img, bboxes2d, colors, texts)`, lines 90-130.
`stroke corners` is the footprint of the external `cv2.polylines` closed
2px outline through the given corners; `glyph s org` the footprint of
`cv2.putText(_, s, org, ...)`.  Python raises the texts length mismatch
only after the boxes are drawn; the `Except` model returns the error. -/
def render_bbox2d_on_image (stroke : List (ℤ × ℤ) → ℕ → ℕ → Bool)
    (glyph : String → ℤ × ℤ → ℕ → ℕ → Bool) (img : Image)
    (bboxes2d : List (ℚ × ℚ × ℚ × ℚ)) (colors : Option (List Color))
    (texts : Option (List String)) : Except String Image :=
  let boxes := bboxes2d.map bbox2dCorners
  match colors with
  | none => addTexts glyph boxes texts (drawOver stroke (fun _ => COLOR_RED) boxes img)
  | some cs =>
    if boxes.length = cs.length then
      addTexts glyph boxes texts
        (drawOver (fun bc => stroke bc.1) (fun bc => bc.2) (boxes.zip cs) img)
    else .error "len(boxes) != len(colors)"

/-- One invocation of an external OpenCV drawing primitive, as recorded by
the trace model of `render_bounding_box_3d`. -/
inductive DrawCmd where
  | circle : ℤ × ℤ → ℤ → Color → DrawCmd
  | line : ℤ × ℤ → ℤ × ℤ → Color → ℕ → DrawCmd
  | text : String → ℤ × ℤ → Color → DrawCmd
deriving DecidableEq

/-- A 3D bounding box, an external collaborator exposing 8 corners. -/
structure BoundingBox3D where
  corners : Fin 8 → Vec3

/-- Lines 261-264 of the source: the default edge palette, or four copies
of the override color. -/
def box3dColors (color : Option Color) : List Color :=
  match color with
  | none => [COLOR_RED, COLOR_GREEN, COLOR_BLUE, COLOR_GRAY]
  | some c => [c, c, c, c]

/-- Lines 269-276: the 8 projected corners, truncated to `np.int32`. -/
def box3dCorners2d (bev : BEVImage) (bbox : BoundingBox3D) : Fin 8 → ℤ × ℤ := fun k =>
  (truncQ (bevProj bev (bbox.corners k)).1, truncQ (bevProj bev (bbox.corners k)).2)

/-- Line 275: the box center, the mean of the (float) projected corners,
truncated to `np.int32`. -/
def box3dCenter (bev : BEVImage) (bbox : BoundingBox3D) : ℤ × ℤ :=
  let u := fun k : Fin 8 => (bevProj bev (bbox.corners k)).1
  let v := fun k : Fin 8 => (bevProj bev (bbox.corners k)).2
  (truncQ ((u 0 + u 1 + u 2 + u 3 + u 4 + u 5 + u 6 + u 7) / 8),
   truncQ ((v 0 + v 1 + v 2 + v 3 + v 4 + v 5 + v 6 + v 7) / 8))

/-- Lines 278-287, for one box: center dot, heading line to the midpoint of
edge 0-1 (`//` is numpy floor division), then the four 2px edges
0-1, 3-4, 1-5, 4-5 in `colors[0]`, `colors[3]`, `colors[3]`, `colors[2]`. -/
def box3dDrawCmds (bev : BEVImage) (colors : List Color) (bbox : BoundingBox3D) :
    List DrawCmd :=
  let c := box3dCorners2d bev bbox
  let ctr := box3dCenter bev bbox
  [.circle ctr 1 COLOR_GREEN,
   .line ctr (Int.fdiv ((c 0).1 + (c 1).1) 2, Int.fdiv ((c 0).2 + (c 1).2) 2) COLOR_WHITE 2,
   .line (c 0) (c 1) (colors.getD 0 COLOR_RED) 2,
   .line (c 3) (c 4) (colors.getD 3 COLOR_RED) 2,
   .line (c 1) (c 5) (colors.getD 3 COLOR_RED) 2,
   .line (c 4) (c 5) (colors.getD 2 COLOR_RED) 2]

/-- One iteration of the cuboid loop at lines 267-291, for the box at
index `bi.1`: the axis selection `corners[:, xaxis]` raises for an axis
outside `{0, 1, 2}`; otherwise the box's commands are appended, followed by
its label when a non-empty `texts` is given (`texts[bidx]` raises when that
list is shorter than the box list). -/
def box3dStep (bev : BEVImage) (colors : List Color) (texts : Option (List String))
    (acc : List DrawCmd) (bi : ℕ × BoundingBox3D) : Except String (List DrawCmd) :=
  if bev.xaxis < 3 ∧ bev.yaxis < 3 then
    let cmds := box3dDrawCmds bev colors bi.2
    match texts with
    | none => .ok (acc ++ cmds)
    | some ts =>
      if ts.isEmpty then .ok (acc ++ cmds)
      else
        match ts.get? bi.1 with
        | some t => .ok (acc ++ cmds ++ [.text t (box3dCorners2d bev bi.2 0) COLOR_WHITE])
        | none => .error "IndexError"
  else .error "IndexError"

/-- `BEVImage.render_bounding_box_3d`, lines 246-291, modelled by the
sequence of drawing-primitive calls it issues on `self.data` (the
primitives themselves are external). -/
def BEVImage.render_bounding_box_3d_cmds (bev : BEVImage) (bboxes3d : List BoundingBox3D)
    (color : Option Color) (texts : Option (List String)) : Except String (List DrawCmd) :=
  bboxes3d.enum.foldlM (box3dStep bev (box3dColors color) texts) []

/-- Accumulated overwrite color of a draw pass at one pixel: the color of
the last item whose footprint covers the pixel, if any. -/
def overlayOpt (fp : α → ℕ → ℕ → Bool) (colOf : α → Color) (l : List α) (r c : ℕ) :
    Option Color :=
  l.foldl (fun acc a => if fp a r c then some (colOf a) else acc) none

/-- Whether a fallible rendering call returned normally. -/
def exceptIsOk : Except String α → Bool
  | .ok _ => true
  | .error _ => false

/-! Concrete fixtures used by witnesses and counterexamples. -/

/-- A stroke footprint covering exactly the pixel (0, 0). -/
def stroke0 : List (ℤ × ℤ) → ℕ → ℕ → Bool := fun _ r c => decide (r = 0 ∧ c = 0)

/-- A glyph footprint covering exactly the pixel (1, 1). -/
def glyph0 : String → ℤ × ℤ → ℕ → ℕ → Bool := fun _ _ r c => decide (r = 1 ∧ c = 1)

/-- An empty circle footprint. -/
def circleFp0 : ℤ × ℤ → ℤ → ℕ → ℕ → Bool := fun _ _ _ _ => false

/-- A camera whose pose is the identity and whose intrinsic projection
forgets the depth coordinate. -/
def cam0 : Camera := ⟨fun v => v, fun v => (v.1, v.2.1)⟩

/-- A constant colormap. -/
def cmap0 : ℚ → Color := fun _ => (9, 9, 9)

/-- A constant percentile collaborator. -/
def perc0 : List ℚ → ℚ := fun _ => 1

/-- A one-point cloud projecting to pixel (2, 2) at depth 1 under `cam0`. -/
def pts0 : List Vec3 := [(2, 2, 1)]

/-- A small bird's-eye-view state: 4 × 4 raster, one pixel per meter,
axes 0 and 1, center pixel (2, 2). -/
def bev0 : BEVImage := ⟨4, 4, 1, 0, 1, (2, 2), Image.zeros 4 4⟩

/-- A degenerate 3D box with all corners at (1, 1, 0). -/
def box30 : BoundingBox3D := ⟨fun _ => (1, 1, 0)⟩

end DGPViz

namespace DGPViz

/-! ### Basic lemmas about truncation -/

theorem truncQ_eq_floor (q : ℚ) (h : 0 ≤ q) : truncQ q = ⌊q⌋ := by
  rw [Rat.floor_def, truncQ]
  obtain ⟨n, hn⟩ := Int.eq_ofNat_of_zero_le (Rat.num_nonneg.mpr h)
  rw [hn]
  cases n with
  | zero => simp
  | succ m =>
    rw [Int.sign_eq_one_iff_pos.mpr (by exact_mod_cast Nat.succ_pos m), one_mul,
      Int.natAbs_ofNat]
    exact Int.ofNat_div _ _

theorem truncQ_nonneg {q : ℚ} (h : 0 ≤ q) : 0 ≤ truncQ q := by
  rw [truncQ_eq_floor q h]
  exact Int.floor_nonneg.mpr h

theorem truncQ_lt_natCast {q : ℚ} {n : ℕ} (h0 : 0 ≤ q) (h : q < (n : ℚ)) :
    truncQ q < (n : ℤ) := by
  rw [truncQ_eq_floor q h0]
  exact Int.floor_lt.mpr (by exact_mod_cast h)

theorem truncQ_natCast (n : ℕ) : truncQ ((n : ℚ)) = n := by
  rw [truncQ_eq_floor _ (by positivity), Int.floor_natCast]

theorem truncQ_intCast (z : ℤ) : truncQ ((z : ℚ)) = z := by
  rw [truncQ]
  rw [show ((z : ℚ)).num = z from Rat.num_intCast z,
    show ((z : ℚ)).den = 1 from Rat.den_intCast z]
  simp [Int.sign_mul_abs]

/-! ### Basic lemmas about images and overwriting passes -/

theorem Image.ext2 {a b : Image} (h1 : a.H = b.H) (h2 : a.W = b.W)
    (h3 : ∀ r c, a.px r c = b.px r c) : a = b := by
  cases a
  cases b
  simp only [Image.mk.injEq]
  exact ⟨h1, h2, funext fun r => funext fun c => h3 r c⟩

theorem setPx_H (im : Image) (r c : ℕ) (col : Color) : (im.setPx r c col).H = im.H := rfl

theorem setPx_W (im : Image) (r c : ℕ) (col : Color) : (im.setPx r c col).W = im.W := rfl

theorem overwrite_H (fp : ℕ → ℕ → Bool) (col : Color) (im : Image) :
    (overwrite fp col im).H = im.H := rfl

theorem overwrite_W (fp : ℕ → ℕ → Bool) (col : Color) (im : Image) :
    (overwrite fp col im).W = im.W := rfl

theorem drawOver_H (fp : α → ℕ → ℕ → Bool) (colOf : α → Color) (l : List α) (im : Image) :
    (drawOver fp colOf l im).H = im.H := by
  induction l generalizing im with
  | nil => rfl
  | cons a t ih => exact ih (overwrite (fp a) (colOf a) im)

theorem drawOver_W (fp : α → ℕ → ℕ → Bool) (colOf : α → Color) (l : List α) (im : Image) :
    (drawOver fp colOf l im).W = im.W := by
  induction l generalizing im with
  | nil => rfl
  | cons a t ih => exact ih (overwrite (fp a) (colOf a) im)

theorem overlayOpt_seed (fp : α → ℕ → ℕ → Bool) (colOf : α → Color) (l : List α)
    (r c : ℕ) (s : Option Color) :
    l.foldl (fun acc a => if fp a r c then some (colOf a) else acc) s =
      (match overlayOpt fp colOf l r c with
       | some d => some d
       | none => s) := by
  induction l generalizing s with
  | nil => rfl
  | cons a t ih =>
    show t.foldl _ (if fp a r c then some (colOf a) else s) = _
    rw [ih]
    have hcons : overlayOpt fp colOf (a :: t) r c =
        t.foldl (fun acc x => if fp x r c then some (colOf x) else acc)
          (if fp a r c then some (colOf a) else none) := rfl
    rw [hcons, ih]
    cases howt : overlayOpt fp colOf t r c with
    | some d => rfl
    | none => cases hfa : fp a r c <;> simp

theorem drawOver_px (fp : α → ℕ → ℕ → Bool) (colOf : α → Color) (l : List α)
    (im : Image) (r c : ℕ) :
    (drawOver fp colOf l im).px r c = (overlayOpt fp colOf l r c).getD (im.px r c) := by
  induction l generalizing im with
  | nil => rfl
  | cons a t ih =>
    show (drawOver fp colOf t (overwrite (fp a) (colOf a) im)).px r c = _
    rw [ih]
    have hcons : overlayOpt fp colOf (a :: t) r c =
        t.foldl (fun acc x => if fp x r c then some (colOf x) else acc)
          (if fp a r c then some (colOf a) else none) := rfl
    rw [hcons, overlayOpt_seed]
    cases howt : overlayOpt fp colOf t r c with
    | some d => rfl
    | none =>
      cases hfa : fp a r c <;> simp [overwrite, hfa]

theorem overlayOpt_none (fp : α → ℕ → ℕ → Bool) (colOf : α → Color) (l : List α)
    (r c : ℕ) (h : ∀ a ∈ l, fp a r c = false) : overlayOpt fp colOf l r c = none := by
  induction l with
  | nil => rfl
  | cons a t ih =>
    have hcons : overlayOpt fp colOf (a :: t) r c =
        t.foldl (fun acc x => if fp x r c then some (colOf x) else acc)
          (if fp a r c then some (colOf a) else none) := rfl
    rw [hcons, h a (List.mem_cons_self a t), if_neg (by simp)]
    exact ih fun x hx => h x (List.mem_cons_of_mem a hx)

theorem drawOver_px_nohit (fp : α → ℕ → ℕ → Bool) (colOf : α → Color) (l : List α)
    (im : Image) (r c : ℕ) (h : ∀ a ∈ l, fp a r c = false) :
    (drawOver fp colOf l im).px r c = im.px r c := by
  rw [drawOver_px, overlayOpt_none fp colOf l r c h]
  rfl

theorem drawOver_idem (fp : α → ℕ → ℕ → Bool) (colOf : α → Color) (l : List α)
    (im : Image) :
    drawOver fp colOf l (drawOver fp colOf l im) = drawOver fp colOf l im := by
  refine Image.ext2 (by rw [drawOver_H]) (by rw [drawOver_W]) fun r c => ?_
  rw [drawOver_px, drawOver_px]
  cases h : overlayOpt fp colOf l r c <;> simp [h]

theorem overlayOpt_unique (fp : α → ℕ → ℕ → Bool) (colOf : α → Color) (l : List α)
    (r c : ℕ) (d : α) (i : ℕ) (hi : i < l.length) (hhit : fp (l.getD i d) r c = true)
    (hothers : ∀ j, j < l.length → j ≠ i → fp (l.getD j d) r c = false) :
    overlayOpt fp colOf l r c = some (colOf (l.getD i d)) := by
  induction l generalizing i with
  | nil => exact absurd hi (Nat.not_lt_zero i)
  | cons a t ih =>
    have hcons : overlayOpt fp colOf (a :: t) r c =
        t.foldl (fun acc x => if fp x r c then some (colOf x) else acc)
          (if fp a r c then some (colOf a) else none) := rfl
    cases i with
    | zero =>
      have ht : ∀ x ∈ t, fp x r c = false := by
        intro x hx
        obtain ⟨j, hj, hjx⟩ := List.mem_iff_getElem.mp hx
        have := hothers (j + 1) (by simpa using Nat.succ_lt_succ hj) (Nat.succ_ne_zero j)
        rw [show ((a :: t).getD (j + 1) d) = t.getD j d from rfl,
          List.getD_eq_getElem t d hj, hjx] at this
        exact this
      rw [hcons, overlayOpt_seed, overlayOpt_none fp colOf t r c ht,
        if_pos (by simpa using hhit)]
      rfl
    | succ k =>
      have hk : k < t.length := by simpa using hi
      have hhit' : fp (t.getD k d) r c = true := hhit
      have hothers' : ∀ j, j < t.length → j ≠ k → fp (t.getD j d) r c = false := by
        intro j hj hjk
        exact hothers (j + 1) (by simpa using Nat.succ_lt_succ hj)
          (fun heq => hjk (Nat.succ_injective heq))
      have hrec := ih k hk hhit' hothers'
      have hstep : overlayOpt fp colOf (a :: t) r c =
          match overlayOpt fp colOf t r c with
          | some e => some e
          | none => (if fp a r c then some (colOf a) else none) := by
        rw [hcons, overlayOpt_seed]
      rw [hstep, hrec]
      rfl

theorem drawOver_px_unique (fp : α → ℕ → ℕ → Bool) (colOf : α → Color) (l : List α)
    (im : Image) (r c : ℕ) (d : α) (i : ℕ) (hi : i < l.length)
    (hhit : fp (l.getD i d) r c = true)
    (hothers : ∀ j, j < l.length → j ≠ i → fp (l.getD j d) r c = false) :
    (drawOver fp colOf l im).px r c = colOf (l.getD i d) := by
  rw [drawOver_px, overlayOpt_unique fp colOf l r c d i hi hhit hothers]
  rfl

theorem overlayOpt_cons (fp : α → ℕ → ℕ → Bool) (colOf : α → Color) (a : α) (t : List α)
    (r c : ℕ) :
    overlayOpt fp colOf (a :: t) r c =
      (match overlayOpt fp colOf t r c with
       | some d => some d
       | none => if fp a r c then some (colOf a) else none) := by
  rw [show overlayOpt fp colOf (a :: t) r c =
      t.foldl (fun acc x => if fp x r c then some (colOf x) else acc)
        (if fp a r c then some (colOf a) else none) from rfl, overlayOpt_seed]

theorem overlayOpt_hit_const (fp : α → ℕ → ℕ → Bool) (col : Color) (l : List α)
    (r c : ℕ) (h : ∃ a ∈ l, fp a r c = true) :
    overlayOpt fp (fun _ => col) l r c = some col := by
  induction l with
  | nil => simp at h
  | cons a t ih =>
    rw [overlayOpt_cons]
    cases howt : overlayOpt fp (fun _ => col) t r c with
    | some d =>
      have : ¬(∀ x ∈ t, fp x r c = false) := by
        intro hall
        rw [overlayOpt_none fp (fun _ => col) t r c hall] at howt
        exact Option.noConfusion howt
      by_cases hth : ∃ x ∈ t, fp x r c = true
      · rw [ih hth] at howt
        simpa using howt.symm
      · exact absurd (fun x hx => by
          cases hfx : fp x r c with
          | true => exact absurd ⟨x, hx, hfx⟩ hth
          | false => rfl) this
    | none =>
      obtain ⟨x, hx, hfx⟩ := h
      rcases List.mem_cons.mp hx with rfl | hxt
      · simp [hfx]
      · rw [ih ⟨x, hxt, hfx⟩] at howt
        exact Option.noConfusion howt

theorem drawOver_px_hit_const (fp : α → ℕ → ℕ → Bool) (col : Color) (l : List α)
    (im : Image) (r c : ℕ) (h : ∃ a ∈ l, fp a r c = true) :
    (drawOver fp (fun _ => col) l im).px r c = col := by
  rw [drawOver_px, overlayOpt_hit_const fp col l r c h]
  rfl

/-! ### Lemmas about checked and unchecked scatter writes -/

theorem scatterU_H (im : Image) (l : List (Vec2 × Color)) : (scatterU im l).H = im.H := by
  induction l generalizing im with
  | nil => rfl
  | cons a t ih => exact ih _

theorem scatterU_W (im : Image) (l : List (Vec2 × Color)) : (scatterU im l).W = im.W := by
  induction l generalizing im with
  | nil => rfl
  | cons a t ih => exact ih _

theorem scatterChecked_ok (im : Image) (l : List (Vec2 × Color))
    (hb : ∀ x ∈ l, 0 ≤ truncQ x.1.1 ∧ truncQ x.1.1 < (im.W : ℤ) ∧
      0 ≤ truncQ x.1.2 ∧ truncQ x.1.2 < (im.H : ℤ)) :
    scatterChecked im l = .ok (scatterU im l) := by
  induction l generalizing im with
  | nil => rfl
  | cons a t ih =>
    obtain ⟨h1, h2, h3, h4⟩ := hb a (List.mem_cons_self a t)
    have hw : npWrite im (truncQ a.1.2) (truncQ a.1.1) a.2 =
        .ok (im.setPx (truncQ a.1.2).toNat (truncQ a.1.1).toNat a.2) := by
      unfold npWrite npIndex
      rw [if_neg (not_lt.mpr h3), if_pos ⟨h3, h4⟩, if_neg (not_lt.mpr h1), if_pos ⟨h1, h2⟩]
      rfl
    show npWrite im (truncQ a.1.2) (truncQ a.1.1) a.2 >>= _ = _
    rw [hw]
    exact ih (im.setPx (truncQ a.1.2).toNat (truncQ a.1.1).toNat a.2)
      fun x hx => hb x (List.mem_cons_of_mem a hx)

theorem scatterU_px_nohit (im : Image) (l : List (Vec2 × Color)) (r c : ℕ)
    (h : ∀ x ∈ l, ¬((truncQ x.1.2).toNat = r ∧ (truncQ x.1.1).toNat = c)) :
    (scatterU im l).px r c = im.px r c := by
  induction l generalizing im with
  | nil => rfl
  | cons a t ih =>
    show (scatterU (im.setPx _ _ _) t).px r c = im.px r c
    rw [ih _ fun x hx => h x (List.mem_cons_of_mem a hx)]
    exact if_neg fun hc => h a (List.mem_cons_self a t) ⟨hc.1.symm, hc.2.symm⟩

theorem scatterU_px_hit_const (im : Image) (l : List (Vec2 × Color)) (col0 : Color)
    (r c : ℕ) (hall : ∀ x ∈ l, x.2 = col0)
    (hhit : ∃ x ∈ l, (truncQ x.1.2).toNat = r ∧ (truncQ x.1.1).toNat = c) :
    (scatterU im l).px r c = col0 := by
  induction l generalizing im with
  | nil => simp at hhit
  | cons a t ih =>
    show (scatterU (im.setPx _ _ _) t).px r c = col0
    by_cases hth : ∃ x ∈ t, (truncQ x.1.2).toNat = r ∧ (truncQ x.1.1).toNat = c
    · exact ih _ (fun x hx => hall x (List.mem_cons_of_mem a hx)) hth
    · have hnt : ∀ x ∈ t, ¬((truncQ x.1.2).toNat = r ∧ (truncQ x.1.1).toNat = c) :=
        fun x hx hc => hth ⟨x, hx, hc⟩
      rw [scatterU_px_nohit _ t r c hnt]
      obtain ⟨x, hx, hxx⟩ := hhit
      rcases List.mem_cons.mp hx with rfl | hxt
      · rw [show (im.setPx (truncQ x.1.2).toNat (truncQ x.1.1).toNat x.2).px r c =
            if r = (truncQ x.1.2).toNat ∧ c = (truncQ x.1.1).toNat then x.2
            else im.px r c from rfl, if_pos ⟨hxx.1.symm, hxx.2.symm⟩]
        exact hall x (List.mem_cons_self x t)
      · exact absurd ⟨x, hxt, hxx⟩ hth

/-! ### List utilities -/

theorem mapM_ok (f : α → Except String β) (g : α → β) (l : List α)
    (h : ∀ a ∈ l, f a = .ok (g a)) : l.mapM f = .ok (l.map g) := by
  induction l with
  | nil => rfl
  | cons a t ih =>
    rw [List.mapM_cons, h a (List.mem_cons_self a t),
      ih fun x hx => h x (List.mem_cons_of_mem a hx)]
    rfl

theorem getD_zip (l1 : List α) (l2 : List β) (j : ℕ) (d1 : α) (d2 : β)
    (h1 : j < l1.length) (h2 : j < l2.length) :
    (l1.zip l2).getD j (d1, d2) = (l1.getD j d1, l2.getD j d2) := by
  rw [List.getD_eq_getElem _ _ (by rw [List.length_zip]; omega),
    List.getD_eq_getElem _ _ h1, List.getD_eq_getElem _ _ h2, List.getElem_zip]

theorem getD_map_of_lt (f : α → β) (l : List α) (j : ℕ) (d1 : α) (d2 : β)
    (h : j < l.length) : (l.map f).getD j d2 = f (l.getD j d1) := by
  rw [List.getD_eq_getElem _ _ (by rw [List.length_map]; omega),
    List.getD_eq_getElem _ _ h, List.getElem_map]

/-! ### Characterization of the 2D box renderer -/

theorem render_bbox2d_none_texts (stroke : List (ℤ × ℤ) → ℕ → ℕ → Bool)
    (glyph : String → ℤ × ℤ → ℕ → ℕ → Bool) (img : Image)
    (bbs : List (ℚ × ℚ × ℚ × ℚ)) (cs : List Color) (hcs : cs.length = bbs.length) :
    render_bbox2d_on_image stroke glyph img bbs (some cs) none =
      .ok (drawOver (fun bc => stroke bc.1) (fun bc => bc.2)
        ((bbs.map bbox2dCorners).zip cs) img) := by
  unfold render_bbox2d_on_image
  dsimp only
  rw [if_pos (by rw [List.length_map]; exact hcs.symm)]
  rfl

theorem render_bbox2d_matching (stroke : List (ℤ × ℤ) → ℕ → ℕ → Bool)
    (glyph : String → ℤ × ℤ → ℕ → ℕ → Bool) (img : Image)
    (bbs : List (ℚ × ℚ × ℚ × ℚ)) (cs : List Color) (ts : List String)
    (hcs : cs.length = bbs.length) (hts : ts.length = bbs.length) :
    render_bbox2d_on_image stroke glyph img bbs (some cs) (some ts) =
      .ok (drawOver (fun p : String × (ℤ × ℤ) => glyph p.1 p.2) (fun _ => COLOR_WHITE)
        (ts.zip ((bbs.map bbox2dCorners).map fun b => b.headI))
        (drawOver (fun bc => stroke bc.1) (fun bc => bc.2)
          ((bbs.map bbox2dCorners).zip cs) img)) := by
  unfold render_bbox2d_on_image
  dsimp only
  rw [if_pos (by rw [List.length_map]; exact hcs.symm)]
  unfold addTexts
  cases ts with
  | nil => rfl
  | cons t0 ts' =>
    dsimp only
    rw [if_neg (by simp)]
    rw [if_pos (by rw [List.length_map]; exact hts.symm)]

theorem strokePass_px_unique (stroke : List (ℤ × ℤ) → ℕ → ℕ → Bool) (img : Image)
    (bbs : List (ℚ × ℚ × ℚ × ℚ)) (cs : List Color) (hcs : cs.length = bbs.length)
    (i r c : ℕ) (hi : i < bbs.length)
    (hhit : stroke (bbox2dCorners (bbs.getD i (0, 0, 0, 0))) r c = true)
    (hothers : ∀ j, j < bbs.length → j ≠ i →
      stroke (bbox2dCorners (bbs.getD j (0, 0, 0, 0))) r c = false) :
    (drawOver (fun bc => stroke bc.1) (fun bc => bc.2)
        ((bbs.map bbox2dCorners).zip cs) img).px r c = cs.getD i (0, 0, 0) := by
  have hzlen : ((bbs.map bbox2dCorners).zip cs).length = bbs.length := by
    rw [List.length_zip, List.length_map, hcs, Nat.min_self]
  have hget : ∀ j, j < bbs.length →
      ((bbs.map bbox2dCorners).zip cs).getD j ([], (0, 0, 0)) =
        (bbox2dCorners (bbs.getD j (0, 0, 0, 0)), cs.getD j (0, 0, 0)) := by
    intro j hj
    rw [getD_zip _ _ j [] (0, 0, 0) (by rw [List.length_map]; exact hj)
        (by rw [hcs]; exact hj),
      getD_map_of_lt bbox2dCorners bbs j (0, 0, 0, 0) [] hj]
  have := drawOver_px_unique (fun bc : List (ℤ × ℤ) × Color => stroke bc.1)
    (fun bc => bc.2) ((bbs.map bbox2dCorners).zip cs) img r c ([], (0, 0, 0)) i
    (by rw [hzlen]; exact hi)
    (by rw [hget i hi]; exact hhit)
    (by
      intro j hj hji
      rw [hget j (by rw [← hzlen]; exact hj)]
      exact hothers j (by rw [← hzlen]; exact hj) hji)
  rw [this, hget i hi]

end DGPViz

namespace DGPViz

/-- C10: calling `render_bbox2d_on_image` with `texts = []` on a non-empty
box list is the same as omitting `texts`: the Python check `if texts:`
treats the empty list as falsy, so no length comparison happens, no label
is drawn, and the call does not fail. -/
theorem C10_empty_texts_like_none :
    ∀ (stroke : List (ℤ × ℤ) → ℕ → ℕ → Bool) (glyph : String → ℤ × ℤ → ℕ → ℕ → Bool)
      (img : Image) (bbs : List (ℚ × ℚ × ℚ × ℚ)) (colors : Option (List Color)),
    bbs ≠ [] →
    render_bbox2d_on_image stroke glyph img bbs colors (some []) =
      render_bbox2d_on_image stroke glyph img bbs colors none ∧
    exceptIsOk (render_bbox2d_on_image stroke glyph img bbs none (some [])) = true := by
  intro stroke glyph img bbs colors _
  constructor
  · cases colors with
    | none => rfl
    | some cs =>
      by_cases hl : (bbs.map bbox2dCorners).length = cs.length
      · unfold render_bbox2d_on_image
        dsimp only
        rw [if_pos hl, if_pos hl]
        rfl
      · unfold render_bbox2d_on_image
        dsimp only
        rw [if_neg hl, if_neg hl]
  · rfl

/-- C10 witness: a concrete one-box call with empty texts succeeds and
matches the texts-omitted call. -/
theorem C10_witness :
    render_bbox2d_on_image stroke0 glyph0 (Image.zeros 4 4)
        [((0 : ℚ), (0 : ℚ), (1 : ℚ), (1 : ℚ))] none (some []) =
      render_bbox2d_on_image stroke0 glyph0 (Image.zeros 4 4)
        [((0 : ℚ), (0 : ℚ), (1 : ℚ), (1 : ℚ))] none none ∧
    exceptIsOk (render_bbox2d_on_image stroke0 glyph0 (Image.zeros 4 4)
        [((0 : ℚ), (0 : ℚ), (1 : ℚ), (1 : ℚ))] none (some [])) = true :=
  C10_empty_texts_like_none stroke0 glyph0 (Image.zeros 4 4)
    [((0 : ℚ), (0 : ℚ), (1 : ℚ), (1 : ℚ))] none (by simp)

/-- C7 (amended): a provided `colors` list of the wrong length always fails,
and a provided *non-empty* `texts` list of the wrong length fails (an empty
`texts` list is falsy for `if texts:` and is treated as omitted); with
matching lengths the call succeeds, a pixel covered only by box `i`'s
outline (and no label) holds `colors[i]`, and a pixel covered by any label
glyph holds white. -/
theorem C7_bbox2d_length_mismatch :
    ∀ (stroke : List (ℤ × ℤ) → ℕ → ℕ → Bool) (glyph : String → ℤ × ℤ → ℕ → ℕ → Bool)
      (img : Image) (bbs : List (ℚ × ℚ × ℚ × ℚ)) (cs : List Color) (ts : List String),
    (cs.length ≠ bbs.length → ∀ texts,
      render_bbox2d_on_image stroke glyph img bbs (some cs) texts =
        .error "len(boxes) != len(colors)") ∧
    (ts ≠ [] → ts.length ≠ bbs.length → cs.length = bbs.length →
      render_bbox2d_on_image stroke glyph img bbs (some cs) (some ts) =
        .error "len(boxes) != len(texts)") ∧
    (cs.length = bbs.length → ts.length = bbs.length →
      ∃ res, render_bbox2d_on_image stroke glyph img bbs (some cs) (some ts) = .ok res ∧
        (∀ i r c, i < bbs.length →
          stroke (bbox2dCorners (bbs.getD i (0, 0, 0, 0))) r c = true →
          (∀ j, j < bbs.length → j ≠ i →
            stroke (bbox2dCorners (bbs.getD j (0, 0, 0, 0))) r c = false) →
          (∀ j, j < ts.length →
            glyph (ts.getD j "") (bbox2dCorners (bbs.getD j (0, 0, 0, 0))).headI r c = false) →
          res.px r c = cs.getD i (0, 0, 0)) ∧
        (∀ j r c, j < ts.length →
          glyph (ts.getD j "") (bbox2dCorners (bbs.getD j (0, 0, 0, 0))).headI r c = true →
          res.px r c = COLOR_WHITE)) := by
  intro stroke glyph img bbs cs ts
  refine ⟨?_, ?_, ?_⟩
  · intro hne texts
    unfold render_bbox2d_on_image
    dsimp only
    rw [if_neg (by rw [List.length_map]; exact fun h => hne h.symm)]
  · intro hts0 htsne hcs
    unfold render_bbox2d_on_image
    dsimp only
    rw [if_pos (by rw [List.length_map]; exact hcs.symm)]
    unfold addTexts
    cases ts with
    | nil => exact absurd rfl hts0
    | cons t0 ts' =>
      dsimp only
      rw [if_neg (by simp)]
      rw [if_neg (by rw [List.length_map]; exact fun h => htsne h.symm)]
  · intro hcs hts
    refine ⟨_, render_bbox2d_matching stroke glyph img bbs cs ts hcs hts, ?_, ?_⟩
    · intro i r c hi hhit hothers hng
      have hpairs : ∀ p ∈ ts.zip ((bbs.map bbox2dCorners).map fun b => b.headI),
          glyph p.1 p.2 r c = false := by
        intro p hp
        obtain ⟨k, hk, hkp⟩ := List.mem_iff_getElem.mp hp
        have hk1 : k < ts.length := by
          rw [List.length_zip] at hk
          omega
        have hk2 : k < bbs.length := by rw [← hts]; exact hk1
        have := hng k hk1
        rw [List.getD_eq_getElem ts "" hk1, List.getD_eq_getElem bbs _ hk2] at this
        rw [← hkp, List.getElem_zip]
        simpa using this
      rw [drawOver_px_nohit _ _ _ _ r c hpairs]
      exact strokePass_px_unique stroke img bbs cs hcs i r c hi hhit hothers
    · intro j r c hj hhit
      apply drawOver_px_hit_const
      have hj2 : j < bbs.length := by rw [← hts]; exact hj
      refine ⟨(ts.getD j "", (bbox2dCorners (bbs.getD j (0, 0, 0, 0))).headI), ?_, hhit⟩
      have hzlen : (ts.zip ((bbs.map bbox2dCorners).map fun b => b.headI)).length
          = ts.length := by
        rw [List.length_zip, List.length_map, List.length_map, hts, Nat.min_self]
      have : (ts.zip ((bbs.map bbox2dCorners).map fun b => b.headI)).getD j ("", (0, 0)) =
          (ts.getD j "", (bbox2dCorners (bbs.getD j (0, 0, 0, 0))).headI) := by
        rw [getD_zip _ _ j "" (0, 0) hj
            (by rw [List.length_map, List.length_map, ← hts]; exact hj)]
        rw [getD_map_of_lt (fun b => b.headI) (bbs.map bbox2dCorners) j [] (0, 0)
            (by rw [List.length_map, ← hts]; exact hj)]
        rw [getD_map_of_lt bbox2dCorners bbs j (0, 0, 0, 0) [] hj2]
      rw [← this]
      rw [List.getD_eq_getElem _ _ (by rw [hzlen]; exact hj)]
      exact List.getElem_mem _

/-- C7 counterexample: with one box and a provided empty texts list (length
0 ≠ 1), the call succeeds instead of failing with a length mismatch. -/
theorem C7_counterexample :
    ([] : List String).length ≠ [((0 : ℚ), (0 : ℚ), (1 : ℚ), (1 : ℚ))].length ∧
    exceptIsOk (render_bbox2d_on_image stroke0 glyph0 (Image.zeros 4 4)
      [((0 : ℚ), (0 : ℚ), (1 : ℚ), (1 : ℚ))] none (some [])) = true :=
  ⟨by simp, rfl⟩

/-- C7 witness: the three cases at concrete inputs: a two-color list with
one box fails; a two-text list with one box fails; matching singletons
succeed with the stroke pixel holding the provided color. -/
theorem C7_witness :
    render_bbox2d_on_image stroke0 glyph0 (Image.zeros 4 4)
        [((0 : ℚ), (0 : ℚ), (1 : ℚ), (1 : ℚ))] (some [(3, 3, 3), (4, 4, 4)]) none =
      .error "len(boxes) != len(colors)" ∧
    render_bbox2d_on_image stroke0 glyph0 (Image.zeros 4 4)
        [((0 : ℚ), (0 : ℚ), (1 : ℚ), (1 : ℚ))] (some [(3, 3, 3)]) (some ["a", "b"]) =
      .error "len(boxes) != len(texts)" ∧
    ∃ res, render_bbox2d_on_image stroke0 glyph0 (Image.zeros 4 4)
        [((0 : ℚ), (0 : ℚ), (1 : ℚ), (1 : ℚ))] (some [(3, 3, 3)]) (some ["car"]) = .ok res ∧
      res.px 0 0 = (3, 3, 3) := by
  have h := C7_bbox2d_length_mismatch stroke0 glyph0 (Image.zeros 4 4)
    [((0 : ℚ), (0 : ℚ), (1 : ℚ), (1 : ℚ))] [(3, 3, 3)] ["car"]
  have h2 := C7_bbox2d_length_mismatch stroke0 glyph0 (Image.zeros 4 4)
    [((0 : ℚ), (0 : ℚ), (1 : ℚ), (1 : ℚ))] [(3, 3, 3), (4, 4, 4)] ["a", "b"]
  refine ⟨h2.1 (by decide) none, ?_, ?_⟩
  · have h3 := C7_bbox2d_length_mismatch stroke0 glyph0 (Image.zeros 4 4)
      [((0 : ℚ), (0 : ℚ), (1 : ℚ), (1 : ℚ))] [(3, 3, 3)] ["a", "b"]
    exact h3.2.1 (by simp) (by decide) (by decide)
  · obtain ⟨res, hres, hstrokePx, _⟩ := h.2.2 (by decide) (by decide)
    refine ⟨res, hres, ?_⟩
    have := hstrokePx 0 0 0 (by decide) (by decide)
      (by intro j hj hji; exact absurd (Nat.lt_one_iff.mp hj) hji)
      (by
        intro j hj
        have hj0 : j = 0 := Nat.lt_one_iff.mp (by simpa using hj)
        subst hj0
        decide)
    simpa using this

/-- C8: an identical-color redraw is a fixed point (drawing overwrites, it
never blends), and redrawing with different colors makes the last-drawn
colors win: a pixel covered only by box `i` then holds `colors2[i]`, so
the two results differ whenever `colors[i] ≠ colors2[i]` there. -/
theorem C8_redraw_idempotent_last_write_wins :
    ∀ (stroke : List (ℤ × ℤ) → ℕ → ℕ → Bool) (glyph : String → ℤ × ℤ → ℕ → ℕ → Bool)
      (img : Image) (bbs : List (ℚ × ℚ × ℚ × ℚ)) (cs cs2 : List Color),
    cs.length = bbs.length → cs2.length = bbs.length →
    (render_bbox2d_on_image stroke glyph img bbs (some cs) none =
      .ok (drawOver (fun bc => stroke bc.1) (fun bc => bc.2)
        ((bbs.map bbox2dCorners).zip cs) img)) ∧
    (render_bbox2d_on_image stroke glyph
        (drawOver (fun bc => stroke bc.1) (fun bc => bc.2)
          ((bbs.map bbox2dCorners).zip cs) img) bbs (some cs) none =
      .ok (drawOver (fun bc => stroke bc.1) (fun bc => bc.2)
        ((bbs.map bbox2dCorners).zip cs) img)) ∧
    (∀ i r c, i < bbs.length →
      stroke (bbox2dCorners (bbs.getD i (0, 0, 0, 0))) r c = true →
      (∀ j, j < bbs.length → j ≠ i →
        stroke (bbox2dCorners (bbs.getD j (0, 0, 0, 0))) r c = false) →
      (drawOver (fun bc => stroke bc.1) (fun bc => bc.2) ((bbs.map bbox2dCorners).zip cs2)
          (drawOver (fun bc => stroke bc.1) (fun bc => bc.2)
            ((bbs.map bbox2dCorners).zip cs) img)).px r c = cs2.getD i (0, 0, 0) ∧
      (cs.getD i (0, 0, 0) ≠ cs2.getD i (0, 0, 0) →
        drawOver (fun bc => stroke bc.1) (fun bc => bc.2) ((bbs.map bbox2dCorners).zip cs2)
          (drawOver (fun bc => stroke bc.1) (fun bc => bc.2)
            ((bbs.map bbox2dCorners).zip cs) img) ≠
        drawOver (fun bc => stroke bc.1) (fun bc => bc.2)
          ((bbs.map bbox2dCorners).zip cs) img)) := by
  intro stroke glyph img bbs cs cs2 hcs hcs2
  refine ⟨render_bbox2d_none_texts stroke glyph img bbs cs hcs, ?_, ?_⟩
  · rw [render_bbox2d_none_texts stroke glyph _ bbs cs hcs, drawOver_idem]
  · intro i r c hi hhit hothers
    have hpx2 := strokePass_px_unique stroke
      (drawOver (fun bc => stroke bc.1) (fun bc => bc.2) ((bbs.map bbox2dCorners).zip cs) img)
      bbs cs2 hcs2 i r c hi hhit hothers
    have hpx1 := strokePass_px_unique stroke img bbs cs hcs i r c hi hhit hothers
    refine ⟨hpx2, fun hne heq => ?_⟩
    rw [heq, hpx1] at hpx2
    exact hne hpx2

/-- C8 witness: one box whose stroke covers pixel (0, 0), drawn in
(1, 1, 1) and then in (2, 2, 2): the pixel shows the last color and the
two results differ. -/
theorem C8_witness :
    (drawOver (fun bc => stroke0 bc.1) (fun bc => bc.2)
        (([((0 : ℚ), (0 : ℚ), (1 : ℚ), (1 : ℚ))].map bbox2dCorners).zip [(2, 2, 2)])
        (drawOver (fun bc => stroke0 bc.1) (fun bc => bc.2)
          (([((0 : ℚ), (0 : ℚ), (1 : ℚ), (1 : ℚ))].map bbox2dCorners).zip [(1, 1, 1)])
          (Image.zeros 4 4))).px 0 0 = (2, 2, 2) ∧
    drawOver (fun bc => stroke0 bc.1) (fun bc => bc.2)
        (([((0 : ℚ), (0 : ℚ), (1 : ℚ), (1 : ℚ))].map bbox2dCorners).zip [(2, 2, 2)])
        (drawOver (fun bc => stroke0 bc.1) (fun bc => bc.2)
          (([((0 : ℚ), (0 : ℚ), (1 : ℚ), (1 : ℚ))].map bbox2dCorners).zip [(1, 1, 1)])
          (Image.zeros 4 4)) ≠
      drawOver (fun bc => stroke0 bc.1) (fun bc => bc.2)
        (([((0 : ℚ), (0 : ℚ), (1 : ℚ), (1 : ℚ))].map bbox2dCorners).zip [(1, 1, 1)])
        (Image.zeros 4 4) := by
  have h := C8_redraw_idempotent_last_write_wins stroke0 glyph0 (Image.zeros 4 4)
    [((0 : ℚ), (0 : ℚ), (1 : ℚ), (1 : ℚ))] [(1, 1, 1)] [(2, 2, 2)] rfl rfl
  have h3 := h.2.2 0 0 0 (by decide) (by decide)
    (by intro j hj hji; exact absurd (Nat.lt_one_iff.mp hj) hji)
  exact ⟨h3.1, h3.2 (by decide)⟩

end DGPViz

namespace DGPViz

theorem foldlM_append_ok (f : List γ → β → Except String (List γ)) (g : β → List γ)
    (hf : ∀ acc bi, f acc bi = .ok (acc ++ g bi)) (l : List β) (acc : List γ) :
    l.foldlM f acc = .ok (acc ++ l.flatMap g) := by
  induction l generalizing acc with
  | nil =>
    show Except.ok acc = _
    rw [List.flatMap_nil, List.append_nil]
  | cons a t ih =>
    show f acc a >>= _ = _
    rw [hf acc a]
    show t.foldlM f (acc ++ g a) = _
    rw [ih (acc ++ g a), List.flatMap_cons, List.append_assoc]

theorem enumFrom_flatMap_snd (g : β → List γ) (l : List β) :
    ∀ n, (List.enumFrom n l).flatMap (fun bi => g bi.2) = l.flatMap g := by
  induction l with
  | nil => intro n; rfl
  | cons a t ih =>
    intro n
    show g a ++ (List.enumFrom (n + 1) t).flatMap _ = _
    rw [ih (n + 1), List.flatMap_cons]

theorem box3dStep_none (bev : BEVImage) (colors : List Color) (hx : bev.xaxis < 3)
    (hy : bev.yaxis < 3) (acc : List DrawCmd) (bi : ℕ × BoundingBox3D) :
    box3dStep bev colors none acc bi = .ok (acc ++ box3dDrawCmds bev colors bi.2) := by
  rw [box3dStep, if_pos ⟨hx, hy⟩]

/-- C5: with valid axes and no labels, `render_bounding_box_3d` issues per
box exactly the center dot, the white heading line, and four 2px
corner-to-corner edges: 0-1 in `colors[0]`, 3-4 in `colors[3]`, 1-5 in
`colors[3]`, and 4-5 in `colors[2]`, where the default palette is
red, green, blue, gray, and an override color replaces all four. -/
theorem C5_box3d_four_edges :
    ∀ (bev : BEVImage) (boxes : List BoundingBox3D) (color : Option Color),
    bev.xaxis < 3 → bev.yaxis < 3 →
    (COLOR_RED = (255, 0, 0) ∧ COLOR_GREEN = (0, 255, 0) ∧ COLOR_BLUE = (0, 0, 255) ∧
      COLOR_GRAY = (100, 100, 100)) ∧
    bev.render_bounding_box_3d_cmds boxes color none =
      .ok (boxes.flatMap fun b =>
        let cs := match color with
          | none => [COLOR_RED, COLOR_GREEN, COLOR_BLUE, COLOR_GRAY]
          | some c => [c, c, c, c]
        let cor := box3dCorners2d bev b
        [.circle (box3dCenter bev b) 1 COLOR_GREEN,
         .line (box3dCenter bev b)
           (Int.fdiv ((cor 0).1 + (cor 1).1) 2, Int.fdiv ((cor 0).2 + (cor 1).2) 2)
           COLOR_WHITE 2,
         .line (cor 0) (cor 1) (cs.getD 0 COLOR_RED) 2,
         .line (cor 3) (cor 4) (cs.getD 3 COLOR_RED) 2,
         .line (cor 1) (cor 5) (cs.getD 3 COLOR_RED) 2,
         .line (cor 4) (cor 5) (cs.getD 2 COLOR_RED) 2]) := by
  intro bev boxes color hx hy
  refine ⟨⟨rfl, rfl, rfl, rfl⟩, ?_⟩
  show boxes.enum.foldlM (box3dStep bev (box3dColors color) none) [] = _
  rw [foldlM_append_ok (box3dStep bev (box3dColors color) none)
    (fun bi => box3dDrawCmds bev (box3dColors color) bi.2)
    (box3dStep_none bev (box3dColors color) hx hy) boxes.enum []]
  rw [List.nil_append, show List.enum boxes = List.enumFrom 0 boxes from rfl,
    enumFrom_flatMap_snd (fun b => box3dDrawCmds bev (box3dColors color) b) boxes 0]
  rfl

/-- C5 witness: the command trace for one concrete box on a concrete
canvas with the default palette. -/
theorem C5_witness :
    (COLOR_RED = (255, 0, 0) ∧ COLOR_GREEN = (0, 255, 0) ∧ COLOR_BLUE = (0, 0, 255) ∧
      COLOR_GRAY = (100, 100, 100)) ∧
    bev0.render_bounding_box_3d_cmds [box30] none none =
      .ok ([box30].flatMap fun b =>
        let cs := match (none : Option Color) with
          | none => [COLOR_RED, COLOR_GREEN, COLOR_BLUE, COLOR_GRAY]
          | some c => [c, c, c, c]
        let cor := box3dCorners2d bev0 b
        [.circle (box3dCenter bev0 b) 1 COLOR_GREEN,
         .line (box3dCenter bev0 b)
           (Int.fdiv ((cor 0).1 + (cor 1).1) 2, Int.fdiv ((cor 0).2 + (cor 1).2) 2)
           COLOR_WHITE 2,
         .line (cor 0) (cor 1) (cs.getD 0 COLOR_RED) 2,
         .line (cor 3) (cor 4) (cs.getD 3 COLOR_RED) 2,
         .line (cor 1) (cor 5) (cs.getD 3 COLOR_RED) 2,
         .line (cor 4) (cor 5) (cs.getD 2 COLOR_RED) 2]) :=
  C5_box3d_four_edges bev0 [box30] none (by decide) (by decide)

end DGPViz

namespace DGPViz

/-- C9: `BEVImage` construction asserts that the two projection axes
differ; for a valid configuration (differing axes, a positive polar step,
nonnegative computed pixel dimensions — a zero step or a negative
dimension would raise in `//` or `np.zeros` instead) it succeeds, the
raster has `int(metric_height * ppm)` rows by `int(metric_width * ppm)`
columns, the stored center pixel is half the pixel dimensions, and every
pixel outside the pre-drawn polar-ring footprints is zero. -/
theorem C9_bev_init :
    ∀ (circleFp : ℤ × ℤ → ℤ → ℕ → ℕ → Bool) (mw mh ppm : ℚ) (step xa ya : ℕ),
    (xa = ya → BEVImage.init circleFp mw mh ppm step xa ya =
      .error "Provide different x and y axis coordinates") ∧
    (xa ≠ ya → 0 < step → 0 ≤ truncQ (mw * ppm) → 0 ≤ truncQ (mh * ppm) →
      ∃ bev, BEVImage.init circleFp mw mh ppm step xa ya = .ok bev ∧
        bev.data.H = (truncQ (mh * ppm)).toNat ∧
        bev.data.W = (truncQ (mw * ppm)).toNat ∧
        bev.center_pixel = (Int.fdiv (truncQ (mw * ppm)) 2, Int.fdiv (truncQ (mh * ppm)) 2) ∧
        bev.xaxis = xa ∧ bev.yaxis = ya ∧
        (∀ r c,
          (∀ k ∈ List.range ((Int.fdiv (truncQ (max mw mh)) (step : ℤ)) - 1).toNat,
            circleFp (Int.fdiv (truncQ (mw * ppm)) 2, Int.fdiv (truncQ (mh * ppm)) 2)
              (truncQ (((k : ℚ) + 1) * (step : ℚ) * ppm)) r c = false) →
          bev.data.px r c = (0, 0, 0))) := by
  intro circleFp mw mh ppm step xa ya
  constructor
  · intro h
    unfold BEVImage.init
    rw [if_pos h]
  · intro hne hstep h1 h2
    unfold BEVImage.init
    rw [if_neg hne]
    dsimp only
    rw [if_neg (by
      intro hc
      rcases hc with hc | hc
      · exact absurd hc (not_lt.mpr h1)
      · exact absurd hc (not_lt.mpr h2))]
    rw [if_neg (Nat.pos_iff_ne_zero.mp hstep)]
    refine ⟨_, rfl, ?_, ?_, rfl, rfl, rfl, ?_⟩
    · exact drawOver_H _ _ _ _
    · exact drawOver_W _ _ _ _
    · intro r c hk
      exact (drawOver_px_nohit _ _ _ _ r c hk).trans rfl

/-- C9 witness: equal axes fail; a 4-meter by 4-meter canvas at one pixel
per meter succeeds with a 4 × 4 raster centered at (2, 2). -/
theorem C9_witness :
    BEVImage.init circleFp0 4 4 1 10 0 0 =
      .error "Provide different x and y axis coordinates" ∧
    ∃ bev, BEVImage.init circleFp0 4 4 1 10 0 1 = .ok bev ∧
      bev.data.H = 4 ∧ bev.data.W = 4 ∧ bev.center_pixel = (2, 2) := by
  have hq : ((4 : ℚ) * 1) = (4 : ℚ) := mul_one 4
  constructor
  · exact (C9_bev_init circleFp0 4 4 1 10 0 0).1 rfl
  · obtain ⟨bev, hinit, hH, hW, hc, -, -, -⟩ :=
      (C9_bev_init circleFp0 4 4 1 10 0 1).2 (by decide) (by decide)
        (by rw [hq]; decide) (by rw [hq]; decide)
    rw [hq] at hH hW hc
    exact ⟨bev, hinit, by rw [hH]; decide, by rw [hW]; decide, by rw [hc]; decide⟩

/-- The `in_view` test of `BEVImage.render_point_cloud` guarantees that the
truncated pixel indices are inside the raster. -/
theorem bevInView_bounds {W H : ℕ} {uv : Vec2} (h : bevInView W H uv = true) :
    0 ≤ truncQ uv.1 ∧ truncQ uv.1 < (W : ℤ) ∧ 0 ≤ truncQ uv.2 ∧ truncQ uv.2 < (H : ℤ) := by
  unfold bevInView at h
  simp only [Bool.and_eq_true, decide_eq_true_eq] at h
  obtain ⟨⟨⟨h1, h2⟩, h3⟩, h4⟩ := h
  exact ⟨truncQ_nonneg h1, truncQ_lt_natCast h1 h3, truncQ_nonneg h2, truncQ_lt_natCast h2 h4⟩

/-- The `in_view` test of `render_pointcloud_on_image` guarantees that the
truncated pixel indices are inside the raster. -/
theorem pointcloudInView_bounds {W H : ℕ} {x : Vec2 × (Color × ℚ)}
    (h : pointcloudInView W H x = true) :
    0 ≤ truncQ x.1.1 ∧ truncQ x.1.1 < (W : ℤ) ∧ 0 ≤ truncQ x.1.2 ∧ truncQ x.1.2 < (H : ℤ) := by
  unfold pointcloudInView at h
  simp only [Bool.and_eq_true, decide_eq_true_eq] at h
  obtain ⟨⟨⟨⟨h1, h2⟩, h3⟩, h4⟩, -⟩ := h
  exact ⟨truncQ_nonneg h1, truncQ_lt_natCast h1 h3, truncQ_nonneg h2, truncQ_lt_natCast h2 h4⟩

/-- With valid axis indices, `BEVImage.render_point_cloud` never fails:
it returns the state whose raster has every retained point written. -/
theorem bev_render_pc_ok (bev : BEVImage) (pc : List Vec3) (hx : bev.xaxis < 3)
    (hy : bev.yaxis < 3) :
    bev.render_point_cloud pc =
      .ok ⟨bev.metric_width, bev.metric_height, bev.pixels_per_meter, bev.xaxis, bev.yaxis,
        bev.center_pixel,
        scatterU bev.data
          (((pc.map (bevProj bev)).filter (bevInView bev.data.W bev.data.H)).map
            fun uv => (uv, ((128, 128, 128) : Color)))⟩ := by
  unfold BEVImage.render_point_cloud
  rw [if_pos ⟨hx, hy⟩]
  dsimp only
  rw [scatterChecked_ok _ _ (by
    intro x hxmem
    obtain ⟨uv, huv, rfl⟩ := List.mem_map.mp hxmem
    exact bevInView_bounds (List.mem_filter.mp huv).2)]

end DGPViz

namespace DGPViz

/-- C4: `render_point_cloud` maps a point to
`(center_x + x * ppm, center_y - y * ppm)` over the two configured axes
(vertical axis flipped), and a retained point is drawn by writing 128 to
all three channels of its pixel; in particular, a point that lands exactly
on the (in-bounds) center pixel leaves it holding (128, 128, 128). -/
theorem C4_bev_projection_center_gray :
    ∀ (bev : BEVImage) (pc : List Vec3) (p : Vec3),
    bev.xaxis < 3 → bev.yaxis < 3 →
    0 ≤ bev.center_pixel.1 → bev.center_pixel.1 < (bev.data.W : ℤ) →
    0 ≤ bev.center_pixel.2 → bev.center_pixel.2 < (bev.data.H : ℤ) →
    p ∈ pc →
    bevProj bev p = ((bev.center_pixel.1 : ℚ), (bev.center_pixel.2 : ℚ)) →
    (∀ q : Vec3, bevProj bev q =
      ((bev.center_pixel.1 : ℚ) + axisVal q bev.xaxis * bev.pixels_per_meter,
       (bev.center_pixel.2 : ℚ) - axisVal q bev.yaxis * bev.pixels_per_meter)) ∧
    ∃ bev', bev.render_point_cloud pc = .ok bev' ∧
      bev'.data.px bev.center_pixel.2.toNat bev.center_pixel.1.toNat = (128, 128, 128) := by
  intro bev pc p hx hy hc1 hc2 hc3 hc4 hp hproj
  refine ⟨fun q => rfl, _, bev_render_pc_ok bev pc hx hy, ?_⟩
  apply scatterU_px_hit_const
  · intro x hxmem
    obtain ⟨uv, -, rfl⟩ := List.mem_map.mp hxmem
    rfl
  · refine ⟨(((bev.center_pixel.1 : ℚ), (bev.center_pixel.2 : ℚ)), ((128, 128, 128) : Color)),
      ?_, ?_, ?_⟩
    · apply List.mem_map.mpr
      refine ⟨((bev.center_pixel.1 : ℚ), (bev.center_pixel.2 : ℚ)), ?_, rfl⟩
      apply List.mem_filter.mpr
      refine ⟨List.mem_map.mpr ⟨p, hp, hproj⟩, ?_⟩
      unfold bevInView
      simp only [Bool.and_eq_true, decide_eq_true_eq]
      exact ⟨⟨⟨by exact_mod_cast hc1, by exact_mod_cast hc3⟩, by exact_mod_cast hc2⟩,
        by exact_mod_cast hc4⟩
    · rw [show (((bev.center_pixel.1 : ℚ), (bev.center_pixel.2 : ℚ)),
          ((128, 128, 128) : Color)).1.2 = ((bev.center_pixel.2 : ℚ)) from rfl, truncQ_intCast]
    · rw [show (((bev.center_pixel.1 : ℚ), (bev.center_pixel.2 : ℚ)),
          ((128, 128, 128) : Color)).1.1 = ((bev.center_pixel.1 : ℚ)) from rfl, truncQ_intCast]

/-- C4 witness: the origin point lands on the center pixel of `bev0`,
which afterwards holds (128, 128, 128). -/
theorem C4_witness :
    ∃ bev', bev0.render_point_cloud [((0 : ℚ), (0 : ℚ), (0 : ℚ))] = .ok bev' ∧
      bev'.data.px 2 2 = (128, 128, 128) :=
  (C4_bev_projection_center_gray bev0 [((0 : ℚ), (0 : ℚ), (0 : ℚ))] ((0 : ℚ), (0 : ℚ), (0 : ℚ))
    (by decide) (by decide) (by decide) (by decide) (by decide) (by decide)
    (List.mem_singleton.mpr rfl) (by simp [bevProj, axisVal, bev0])).2

/-- With a non-empty point cloud, `render_pointcloud_on_image` returns the
composite of the dilated overlay with the input image. -/
theorem render_pc_composite (cmap : ℚ → Color) (percentileFn : List ℚ → ℚ) (img : Image)
    (camera : Camera) (Xw : List Vec3) (hne : Xw ≠ []) :
    render_pointcloud_on_image cmap percentileFn img camera Xw =
      .ok (maxImg (dilate5 (pointcloudOverlay cmap percentileFn img.W img.H camera Xw)) img) := by
  unfold render_pointcloud_on_image
  rw [if_neg (fun h => hne (List.isEmpty_iff.mp h))]
  rw [scatterChecked_ok _ _ (by
    intro x hxmem
    obtain ⟨y, hy, rfl⟩ := List.mem_map.mp hxmem
    exact pointcloudInView_bounds (List.mem_filter.mp hy).2)]
  rfl

/-- C3: out-of-view points are silently dropped, never causing a failure
or an out-of-bounds raster write: `render_pointcloud_on_image` succeeds
and retains exactly the points with nonnegative pixel coordinates strictly
inside the image and positive camera-frame depth (so depth ≤ 0 always
excludes a point); `render_point_cloud` succeeds and retains exactly the
points whose scaled-and-offset coordinates are nonnegative and strictly
inside the canvas; all retained truncated indices are in range. -/
theorem C3_out_of_view_dropped :
    ∀ (cmap : ℚ → Color) (percentileFn : List ℚ → ℚ) (img : Image) (camera : Camera)
      (Xw : List Vec3) (bev : BEVImage) (pc : List Vec3),
    Xw ≠ [] → bev.xaxis < 3 → bev.yaxis < 3 →
    (∃ res, render_pointcloud_on_image cmap percentileFn img camera Xw = .ok res) ∧
    (∀ x ∈ pointcloudPts cmap percentileFn camera Xw,
      x ∈ pointcloudKept cmap percentileFn img.W img.H camera Xw ↔
        (0 ≤ x.1.1 ∧ x.1.1 < (img.W : ℚ) ∧ 0 ≤ x.1.2 ∧ x.1.2 < (img.H : ℚ) ∧ 0 < x.2.2)) ∧
    (∀ x ∈ pointcloudKept cmap percentileFn img.W img.H camera Xw,
      0 ≤ truncQ x.1.1 ∧ truncQ x.1.1 < (img.W : ℤ) ∧
        0 ≤ truncQ x.1.2 ∧ truncQ x.1.2 < (img.H : ℤ)) ∧
    (∀ x ∈ pointcloudPts cmap percentileFn camera Xw, x.2.2 ≤ 0 →
      x ∉ pointcloudKept cmap percentileFn img.W img.H camera Xw) ∧
    (∃ bev', bev.render_point_cloud pc = .ok bev') ∧
    (∀ uv ∈ pc.map (bevProj bev),
      uv ∈ (pc.map (bevProj bev)).filter (bevInView bev.data.W bev.data.H) ↔
        (0 ≤ uv.1 ∧ uv.1 < (bev.data.W : ℚ) ∧ 0 ≤ uv.2 ∧ uv.2 < (bev.data.H : ℚ))) ∧
    (∀ uv ∈ (pc.map (bevProj bev)).filter (bevInView bev.data.W bev.data.H),
      0 ≤ truncQ uv.1 ∧ truncQ uv.1 < (bev.data.W : ℤ) ∧
        0 ≤ truncQ uv.2 ∧ truncQ uv.2 < (bev.data.H : ℤ)) := by
  intro cmap percentileFn img camera Xw bev pc hne hx hy
  have hiff : ∀ x ∈ pointcloudPts cmap percentileFn camera Xw,
      x ∈ pointcloudKept cmap percentileFn img.W img.H camera Xw ↔
        (0 ≤ x.1.1 ∧ x.1.1 < (img.W : ℚ) ∧ 0 ≤ x.1.2 ∧ x.1.2 < (img.H : ℚ) ∧ 0 < x.2.2) := by
    intro x hxm
    unfold pointcloudKept
    rw [List.mem_filter]
    simp only [hxm, true_and]
    unfold pointcloudInView
    simp only [Bool.and_eq_true, decide_eq_true_eq]
    tauto
  refine ⟨⟨_, render_pc_composite cmap percentileFn img camera Xw hne⟩, hiff, ?_, ?_, ?_, ?_, ?_⟩
  · intro x hxm
    exact pointcloudInView_bounds (List.mem_filter.mp hxm).2
  · intro x hxm hz hmem
    exact absurd ((hiff x hxm).mp hmem).2.2.2.2 (not_lt.mpr hz)
  · exact ⟨_, bev_render_pc_ok bev pc hx hy⟩
  · intro uv huvm
    rw [List.mem_filter]
    simp only [huvm, true_and]
    unfold bevInView
    simp only [Bool.and_eq_true, decide_eq_true_eq]
    tauto
  · intro uv huvm
    exact bevInView_bounds (List.mem_filter.mp huvm).2

/-- C3 witness: a concrete one-point cloud on a 4 × 4 image and a concrete
one-point cloud on `bev0` both render without failure. -/
theorem C3_witness :
    (∃ res, render_pointcloud_on_image cmap0 perc0 (Image.zeros 4 4) cam0 pts0 = .ok res) ∧
    (∃ bev', bev0.render_point_cloud [((1 : ℚ), (1 : ℚ), (0 : ℚ))] = .ok bev') := by
  have h := C3_out_of_view_dropped cmap0 perc0 (Image.zeros 4 4) cam0 pts0 bev0
    [((1 : ℚ), (1 : ℚ), (0 : ℚ))] (by simp [pts0]) (by decide) (by decide)
  exact ⟨h.1, h.2.2.2.2.1⟩

/-- C1 (amended): `render_pointcloud_on_image` does *not* mutate the
caller's image: the input buffer is unchanged after the call and the
return value is a freshly computed composite, the per-channel maximum of
the dilated point overlay with the input. -/
theorem C1_pointcloud_returns_fresh_composite :
    ∀ (cmap : ℚ → Color) (percentileFn : List ℚ → ℚ) (img : Image) (camera : Camera)
      (Xw : List Vec3),
    render_pointcloud_img_after img camera Xw = img ∧
    (Xw ≠ [] →
      render_pointcloud_on_image cmap percentileFn img camera Xw =
        .ok (maxImg (dilate5 (pointcloudOverlay cmap percentileFn img.W img.H camera Xw))
          img)) :=
  fun cmap percentileFn img camera Xw =>
    ⟨rfl, render_pc_composite cmap percentileFn img camera Xw⟩

/-- C1 counterexample: for a concrete camera and point cloud on a black
4 × 4 image, the caller's buffer after the call is still black at the
projected pixel while the returned composite is not: the function leaves
the input unchanged and returns a fresh image, contradicting the claimed
in-place mutation. -/
theorem C1_counterexample :
    render_pointcloud_img_after (Image.zeros 4 4) cam0 pts0 = Image.zeros 4 4 ∧
    (render_pointcloud_on_image cmap0 perc0 (Image.zeros 4 4) cam0 pts0).map
        (fun im => im.px 2 2) = .ok ((9 : ℕ), 9, 9) ∧
    (Image.zeros 4 4).px 2 2 = (0, 0, 0) :=
  ⟨rfl, rfl, rfl⟩

/-- C1 witness: the amended statement at the concrete counterexample
inputs. -/
theorem C1_witness :
    render_pointcloud_img_after (Image.zeros 4 4) cam0 pts0 = Image.zeros 4 4 ∧
    render_pointcloud_on_image cmap0 perc0 (Image.zeros 4 4) cam0 pts0 =
      .ok (maxImg (dilate5 (pointcloudOverlay cmap0 perc0 4 4 cam0 pts0)) (Image.zeros 4 4)) := by
  have h := C1_pointcloud_returns_fresh_composite cmap0 perc0 (Image.zeros 4 4) cam0 pts0
  exact ⟨h.1, h.2 (by simp [pts0])⟩

end DGPViz

namespace DGPViz

theorem foldl_hconcat_dims (l : List Image) (acc : Image) (h w : ℕ)
    (ha : acc.H = h) (hl : ∀ x ∈ l, x.H = h ∧ x.W = w) :
    (l.foldl hconcat acc).H = h ∧ (l.foldl hconcat acc).W = acc.W + l.length * w := by
  induction l generalizing acc with
  | nil => exact ⟨ha, by simp⟩
  | cons a t ih =>
    have hstep := ih (hconcat acc a) ha (fun x hx => hl x (List.mem_cons_of_mem a hx))
    refine ⟨hstep.1, ?_⟩
    rw [show (a :: t).foldl hconcat acc = t.foldl hconcat (hconcat acc a) from rfl, hstep.2,
      show (hconcat acc a).W = acc.W + a.W from rfl, (hl a (List.mem_cons_self a t)).2,
      List.length_cons]
    ring

theorem hstackList_dims (l : List Image) (h w : ℕ) (hne : l ≠ [])
    (hl : ∀ x ∈ l, x.H = h ∧ x.W = w) :
    (hstackList l).H = h ∧ (hstackList l).W = l.length * w := by
  match l with
  | [] => exact absurd rfl hne
  | x :: xs =>
    have hx := hl x (List.mem_cons_self x xs)
    have hstep := foldl_hconcat_dims xs x h w hx.1 (fun y hy => hl y (List.mem_cons_of_mem x hy))
    refine ⟨hstep.1, ?_⟩
    rw [show hstackList (x :: xs) = xs.foldl hconcat x from rfl, hstep.2, hx.2,
      List.length_cons]
    ring

theorem foldl_vconcat_dims (l : List Image) (acc : Image) (h w : ℕ)
    (ha : acc.W = w) (hl : ∀ x ∈ l, x.H = h ∧ x.W = w) :
    (l.foldl vconcat acc).H = acc.H + l.length * h ∧ (l.foldl vconcat acc).W = w := by
  induction l generalizing acc with
  | nil => exact ⟨by simp, ha⟩
  | cons a t ih =>
    have hstep := ih (vconcat acc a) ha (fun x hx => hl x (List.mem_cons_of_mem a hx))
    refine ⟨?_, hstep.2⟩
    rw [show (a :: t).foldl vconcat acc = t.foldl vconcat (vconcat acc a) from rfl, hstep.1,
      show (vconcat acc a).H = acc.H + a.H from rfl, (hl a (List.mem_cons_self a t)).1,
      List.length_cons]
    ring

theorem vstackList_dims (l : List Image) (h w : ℕ) (hne : l ≠ [])
    (hl : ∀ x ∈ l, x.H = h ∧ x.W = w) :
    (vstackList l).H = l.length * h ∧ (vstackList l).W = w := by
  match l with
  | [] => exact absurd rfl hne
  | x :: xs =>
    have hx := hl x (List.mem_cons_self x xs)
    have hstep := foldl_vconcat_dims xs x h w hx.2 (fun y hy => hl y (List.mem_cons_of_mem x hy))
    refine ⟨?_, hstep.2⟩
    rw [show vstackList (x :: xs) = xs.foldl vconcat x from rfl, hstep.1, hx.1,
      List.length_cons]
    ring

theorem pySliceStarts_pos (len g : ℕ) (hg : 0 < g) :
    pySliceStarts len (g : ℤ) = (List.range ((len + g - 1) / g)).map (· * g) := by
  unfold pySliceStarts
  rw [if_pos (by exact_mod_cast hg), Int.toNat_natCast]

theorem pySliceStarts_nonpos (len : ℕ) (g : ℤ) (hg : g ≤ 0) : pySliceStarts len g = [] := by
  unfold pySliceStarts
  rw [if_neg (not_lt.mpr hg)]

theorem mosaicTiles_ok (items : List Image) (tW tH count : ℕ) (hW : 0 < tW) (hH : 0 < tH) :
    mosaicTiles items tW tH count =
      .ok ((List.range count).map fun j =>
        if j < items.length then cvResize tW tH (items.getD j (Image.zeros 0 0))
        else Image.zeros tH tW) := by
  unfold mosaicTiles
  apply mapM_ok
  intro j _
  by_cases hjN : j < items.length
  · rw [if_pos hjN, if_pos hjN]
    unfold cvResizeE
    rw [if_neg (by push_neg; omega)]
  · rw [if_neg hjN, if_neg hjN]

theorem mosaicGridHeight_pos (gw : ℤ) (N : ℕ) (hgw : 0 < gw) (hN : 0 < N) :
    0 < mosaicGridHeight gw N := by
  unfold mosaicGridHeight ceilQ
  exact Int.ceil_pos.mpr (div_pos (by exact_mod_cast hN) (by exact_mod_cast hgw))

theorem natCast_le_gw_mul_gh (gw : ℤ) (N : ℕ) (hgw : 0 < gw) :
    (N : ℤ) ≤ gw * mosaicGridHeight gw N := by
  have hgq : (0 : ℚ) < (gw : ℚ) := by exact_mod_cast hgw
  have h := Int.le_ceil ((N : ℚ) / (gw : ℚ))
  rw [div_le_iff hgq] at h
  have h2 : (N : ℚ) ≤ (gw : ℚ) * ((mosaicGridHeight gw N : ℤ) : ℚ) := by
    rw [mul_comm]
    exact h
  exact_mod_cast h2

theorem toNat_mul_nonneg (a b : ℤ) (ha : 0 ≤ a) (hb : 0 ≤ b) :
    (a * b).toNat = a.toNat * b.toNat := by
  obtain ⟨m, rfl⟩ := Int.eq_ofNat_of_zero_le ha
  obtain ⟨n, rfl⟩ := Int.eq_ofNat_of_zero_le hb
  rw [show ((m : ℤ) * (n : ℤ)) = ((m * n : ℕ) : ℤ) from by push_cast; ring,
    Int.toNat_natCast, Int.toNat_natCast, Int.toNat_natCast]

theorem mosaicGridHeight_eval (g N : ℕ) (hg : 0 < g) :
    mosaicGridHeight (g : ℤ) N = (((N + g - 1) / g : ℕ) : ℤ) := by
  unfold mosaicGridHeight ceilQ
  rw [show (((g : ℕ) : ℤ) : ℚ) = (g : ℚ) from by push_cast; ring]
  by_cases hN : N = 0
  · subst hN
    rw [show ((0 : ℕ) : ℚ) = (0 : ℚ) from rfl, zero_div,
      show (0 + g - 1) / g = 0 from Nat.div_eq_of_lt (by omega)]
    simp
  · set d := (N + g - 1) / g with hd
    have hgq : (0 : ℚ) < (g : ℚ) := by exact_mod_cast hg
    have hub : N ≤ d * g := by
      have h2 : N + g - 1 < (d + 1) * g :=
        (Nat.div_lt_iff_lt_mul hg).mp (Nat.lt_succ_self _)
      have h3 : (d + 1) * g = d * g + g := by ring
      omega
    have hd1 : 0 < d := by
      have h7 : 1 * g ≤ N + g - 1 := by omega
      have := (Nat.le_div_iff_mul_le hg).mpr h7
      omega
    have hlb : (d - 1) * g < N := by
      have h4 : d * g ≤ N + g - 1 := Nat.div_mul_le_self (N + g - 1) g
      have h6 : d - 1 + 1 = d := by omega
      have h5 : (d - 1) * g + g = d * g := by
        calc (d - 1) * g + g = (d - 1 + 1) * g := by ring
        _ = d * g := by rw [h6]
      omega
    rw [Int.ceil_eq_iff]
    constructor
    · rw [show (((d : ℕ) : ℤ) : ℚ) = (d : ℚ) from by push_cast; ring,
        show ((d : ℚ) - 1) = ((d - 1 : ℕ) : ℚ) from by
          rw [Nat.cast_sub (by omega : 1 ≤ d)]; push_cast; ring,
        lt_div_iff hgq]
      exact_mod_cast hlb
    · rw [show (((d : ℕ) : ℤ) : ℚ) = (d : ℚ) from by push_cast; ring, div_le_iff hgq]
      exact_mod_cast hub

theorem mosaicAssemble_ok (rows : List Image) (h w : ℕ) (hne : rows ≠ [])
    (hall : ∀ x ∈ rows, x.H = h ∧ x.W = w) :
    ∃ M, mosaicAssemble rows = .ok M ∧ M.H = rows.length * h ∧ M.W = w := by
  match rows with
  | [] => exact absurd rfl hne
  | [r] =>
    refine ⟨r, rfl, ?_, (hall r (List.mem_cons_self r [])).2⟩
    rw [(hall r (List.mem_cons_self r [])).1, List.length_cons]
    simp
  | r1 :: r2 :: rs =>
    have := vstackList_dims (r1 :: r2 :: rs) h w (by simp) hall
    exact ⟨vstackList (r1 :: r2 :: rs), rfl, by rw [this.1], this.2⟩

end DGPViz

namespace DGPViz

/-- With a non-empty input, a positive effective grid width, and positive
target tile dimensions, `mosaic` succeeds and the output is
`grid_height` padded-tile-heights tall by `grid_width` padded-tile-widths
wide. -/
theorem mosaic_ok (items : List Image) (scale : ℚ) (pad : ℕ) (gwOpt : Option ℤ)
    (hne : items ≠ [])
    (hgw : 0 < mosaicGridWidth gwOpt items.length)
    (htW : 0 < (truncQ ((items.headI.W : ℚ) * scale)).toNat)
    (htH : 0 < (truncQ ((items.headI.H : ℚ) * scale)).toNat) :
    ∃ M, mosaic items scale pad gwOpt = .ok M ∧
      M.H = (mosaicGridHeight (mosaicGridWidth gwOpt items.length) items.length).toNat *
        ((truncQ ((items.headI.H : ℚ) * scale)).toNat + 2 * pad) ∧
      M.W = (mosaicGridWidth gwOpt items.length).toNat *
        ((truncQ ((items.headI.W : ℚ) * scale)).toNat + 2 * pad) := by
  have hN0 : 0 < items.length := List.length_pos.mpr hne
  set N := items.length with hNdef
  set gw := mosaicGridWidth gwOpt N with hgwdef
  set gh := mosaicGridHeight gw N with hghdef
  set tW := (truncQ ((items.headI.W : ℚ) * scale)).toNat with htWdef
  set tH := (truncQ ((items.headI.H : ℚ) * scale)).toNat with htHdef
  have hgh : 0 < gh := mosaicGridHeight_pos gw N hgw hN0
  set gwN := gw.toNat with hgwNdef
  set ghN := gh.toNat with hghNdef
  have hgwN0 : 0 < gwN := by omega
  have hghN0 : 0 < ghN := by omega
  have hcount : (gw * gh).toNat = gwN * ghN :=
    toNat_mul_nonneg gw gh (le_of_lt hgw) (le_of_lt hgh)
  set L := (List.range (gw * gh).toNat).map (fun j =>
    if j < N then cvResize tW tH (items.getD j (Image.zeros 0 0))
    else Image.zeros tH tW) with hLdef
  have hLdims : ∀ y ∈ L, y.H = tH ∧ y.W = tW := by
    intro y hy
    obtain ⟨j, -, rfl⟩ := List.mem_map.mp hy
    by_cases hj : j < N
    · rw [if_pos hj]
      exact ⟨rfl, rfl⟩
    · rw [if_neg hj]
      exact ⟨rfl, rfl⟩
  set P := L.map (cvCopyMakeBorder pad) with hPdef
  have hPlen : P.length = gwN * ghN := by
    rw [hPdef, List.length_map, hLdef, List.length_map, List.length_range, hcount]
  have hPdims : ∀ x ∈ P, x.H = tH + 2 * pad ∧ x.W = tW + 2 * pad := by
    intro x hx
    obtain ⟨y, hy, rfl⟩ := List.mem_map.mp hx
    have hyd := hLdims y hy
    constructor
    · show y.H + 2 * pad = tH + 2 * pad
      rw [hyd.1]
    · show y.W + 2 * pad = tW + 2 * pad
      rw [hyd.2]
  have hgwcast : ((gwN : ℕ) : ℤ) = gw := Int.toNat_of_nonneg (le_of_lt hgw)
  have hcnt2 : (gwN * ghN + gwN - 1) / gwN = ghN := by
    have h1 : gwN * ghN + gwN - 1 = (gwN - 1) + gwN * ghN := by omega
    rw [h1, Nat.add_mul_div_left _ _ hgwN0, Nat.div_eq_of_lt (by omega), zero_add]
  have hrowsdef : mosaicRows P gw = (List.range ghN).map
      (fun i => hstackList ((P.drop (i * gwN)).take gwN)) := by
    unfold mosaicRows
    rw [hPlen, ← hgwcast, pySliceStarts_pos (gwN * ghN) gwN hgwN0, hcnt2, List.map_map]
    rw [hgwcast, ← hgwNdef]
    rfl
  have hrowslen : (mosaicRows P gw).length = ghN := by
    rw [hrowsdef, List.length_map, List.length_range]
  have hrowsdims : ∀ x ∈ mosaicRows P gw,
      x.H = tH + 2 * pad ∧ x.W = gwN * (tW + 2 * pad) := by
    rw [hrowsdef]
    intro x hx
    obtain ⟨i, hi, rfl⟩ := List.mem_map.mp hx
    rw [List.mem_range] at hi
    have hslice_len : ((P.drop (i * gwN)).take gwN).length = gwN := by
      rw [List.length_take, List.length_drop, hPlen]
      have hmul : (i + 1) * gwN ≤ ghN * gwN := Nat.mul_le_mul_right gwN hi
      have hexp : (i + 1) * gwN = i * gwN + gwN := by ring
      have hcomm : ghN * gwN = gwN * ghN := Nat.mul_comm ghN gwN
      omega
    have hslice_mem : ∀ y ∈ (P.drop (i * gwN)).take gwN,
        y.H = tH + 2 * pad ∧ y.W = tW + 2 * pad :=
      fun y hy => hPdims y (List.mem_of_mem_drop (List.mem_of_mem_take hy))
    have hsd := hstackList_dims ((P.drop (i * gwN)).take gwN) (tH + 2 * pad) (tW + 2 * pad)
      (by rw [← List.length_pos, hslice_len]; exact hgwN0) hslice_mem
    exact ⟨hsd.1, by rw [hsd.2, hslice_len]⟩
  have hrowsne : mosaicRows P gw ≠ [] := by
    rw [← List.length_pos, hrowslen]
    exact hghN0
  obtain ⟨M, hM, hMH, hMW⟩ := mosaicAssemble_ok (mosaicRows P gw) (tH + 2 * pad)
    (gwN * (tW + 2 * pad)) hrowsne hrowsdims
  refine ⟨M, ?_, ?_, ?_⟩
  · unfold mosaic
    rw [← hNdef, if_neg (by omega)]
    dsimp only
    rw [← hgwdef, ← hghdef, ← htWdef, ← htHdef,
      mosaicTiles_ok items tW tH (gw * gh).toNat htW htH, ← hNdef, ← hLdef]
    dsimp only
    rw [← hPdef]
    exact hM
  · rw [hMH, hrowslen]
  · rw [hMW]

end DGPViz

namespace DGPViz

/-- For a single image and no given grid width, the mosaic is just the
single padded, possibly-rescaled tile. -/
theorem mosaic_single (im : Image) (scale : ℚ) (pad : ℕ)
    (htW : 0 < (truncQ ((im.W : ℚ) * scale)).toNat)
    (htH : 0 < (truncQ ((im.H : ℚ) * scale)).toNat) :
    mosaic [im] scale pad none =
      .ok (cvCopyMakeBorder pad
        (cvResize (truncQ ((im.W : ℚ) * scale)).toNat
          (truncQ ((im.H : ℚ) * scale)).toNat im)) := by
  have hgw1 : mosaicGridWidth none [im].length = 1 := by
    unfold mosaicGridWidth ceilSqrtNat
    rw [show [im].length = 1 from rfl, Nat.sqrt_one]
    norm_num
  have hgh1 : mosaicGridHeight 1 [im].length = 1 := by
    rw [show [im].length = 1 from rfl, show (1 : ℤ) = ((1 : ℕ) : ℤ) from by norm_num,
      mosaicGridHeight_eval 1 1 one_pos]
  unfold mosaic
  rw [if_neg (by simp)]
  dsimp only
  rw [hgw1, hgh1, mosaicTiles_ok [im] (truncQ (([im].headI.W : ℚ) * scale)).toNat
    (truncQ (([im].headI.H : ℚ) * scale)).toNat ((1 * 1 : ℤ)).toNat htW htH]
  dsimp only
  rw [show ((1 * 1 : ℤ)).toNat = 1 from rfl, show List.range 1 = [0] from rfl, List.map_cons, List.map_nil,
    if_pos (by simp : 0 < [im].length), List.getD_cons_zero, List.map_cons, List.map_nil]
  unfold mosaicRows
  rw [show [cvCopyMakeBorder pad (cvResize (truncQ (([im].headI.W : ℚ) * scale)).toNat
      (truncQ (([im].headI.H : ℚ) * scale)).toNat im)].length = 1 from rfl,
    show pySliceStarts 1 1 = [0] from rfl, List.map_cons, List.map_nil, List.drop_zero,
    show ((1 : ℤ)).toNat = 1 from rfl, List.take_succ_cons, List.take_zero]
  rfl

/-- C2: with a non-empty uniform input, a positive effective grid width
`g` (the default being `ceil(sqrt N)`), and positive target tile size, the
mosaic is `grid_height * (int(H*s) + 2*pad)` tall and
`g * (int(W*s) + 2*pad)` wide with `grid_height = ceil(N / g)`; every
input tile is resized to the target shape from the first image's scaled
shape, cells beyond `N` are zero tiles of the target shape whose padded
version is all black, and for a single image the output is exactly the
single padded rescaled tile. -/
theorem C2_mosaic_dimensions :
    ∀ (items : List Image) (scale : ℚ) (pad : ℕ) (gwOpt : Option ℤ),
    items ≠ [] →
    0 < mosaicGridWidth gwOpt items.length →
    0 < (truncQ ((items.headI.W : ℚ) * scale)).toNat →
    0 < (truncQ ((items.headI.H : ℚ) * scale)).toNat →
    (∃ M, mosaic items scale pad gwOpt = .ok M ∧
      M.H = (mosaicGridHeight (mosaicGridWidth gwOpt items.length) items.length).toNat *
        ((truncQ ((items.headI.H : ℚ) * scale)).toNat + 2 * pad) ∧
      M.W = (mosaicGridWidth gwOpt items.length).toNat *
        ((truncQ ((items.headI.W : ℚ) * scale)).toNat + 2 * pad)) ∧
    (mosaicGridHeight (mosaicGridWidth gwOpt items.length) items.length =
      ⌈(items.length : ℚ) / ((mosaicGridWidth gwOpt items.length : ℤ) : ℚ)⌉) ∧
    (gwOpt = none → mosaicGridWidth gwOpt items.length = (ceilSqrtNat items.length : ℤ)) ∧
    (∃ L, mosaicTiles items (truncQ ((items.headI.W : ℚ) * scale)).toNat
        (truncQ ((items.headI.H : ℚ) * scale)).toNat
        (mosaicGridWidth gwOpt items.length *
          mosaicGridHeight (mosaicGridWidth gwOpt items.length) items.length).toNat = .ok L ∧
      items.length ≤ L.length ∧
      (∀ j, j < items.length → L.getD j (Image.zeros 0 0) =
        cvResize (truncQ ((items.headI.W : ℚ) * scale)).toNat
          (truncQ ((items.headI.H : ℚ) * scale)).toNat (items.getD j (Image.zeros 0 0))) ∧
      (∀ j, items.length ≤ j → j < L.length → L.getD j (Image.zeros 0 0) =
        Image.zeros (truncQ ((items.headI.H : ℚ) * scale)).toNat
          (truncQ ((items.headI.W : ℚ) * scale)).toNat)) ∧
    ((cvCopyMakeBorder pad (Image.zeros (truncQ ((items.headI.H : ℚ) * scale)).toNat
        (truncQ ((items.headI.W : ℚ) * scale)).toNat)).H =
      (truncQ ((items.headI.H : ℚ) * scale)).toNat + 2 * pad ∧
     (cvCopyMakeBorder pad (Image.zeros (truncQ ((items.headI.H : ℚ) * scale)).toNat
        (truncQ ((items.headI.W : ℚ) * scale)).toNat)).W =
      (truncQ ((items.headI.W : ℚ) * scale)).toNat + 2 * pad ∧
     (∀ r c, (cvCopyMakeBorder pad (Image.zeros (truncQ ((items.headI.H : ℚ) * scale)).toNat
        (truncQ ((items.headI.W : ℚ) * scale)).toNat)).px r c = (0, 0, 0))) ∧
    (∀ im, items = [im] → gwOpt = none →
      mosaic items scale pad gwOpt =
        .ok (cvCopyMakeBorder pad
          (cvResize (truncQ ((items.headI.W : ℚ) * scale)).toNat
            (truncQ ((items.headI.H : ℚ) * scale)).toNat im))) := by
  intro items scale pad gwOpt hne hgw htW htH
  refine ⟨mosaic_ok items scale pad gwOpt hne hgw htW htH, rfl, ?_, ?_, ⟨rfl, rfl, ?_⟩, ?_⟩
  · intro h
    subst h
    rfl
  · have hN0 : 0 < items.length := List.length_pos.mpr hne
    have hgh : 0 < mosaicGridHeight (mosaicGridWidth gwOpt items.length) items.length :=
      mosaicGridHeight_pos _ _ hgw hN0
    have hle := natCast_le_gw_mul_gh (mosaicGridWidth gwOpt items.length) items.length hgw
    rw [mosaicTiles_ok items _ _ _ htW htH]
    have hcountN : items.length ≤ (mosaicGridWidth gwOpt items.length *
        mosaicGridHeight (mosaicGridWidth gwOpt items.length) items.length).toNat := by
      omega
    refine ⟨_, rfl, ?_, ?_, ?_⟩
    · rw [List.length_map, List.length_range]
      exact hcountN
    · intro j hj
      rw [List.getD_eq_getElem _ _ (by
          rw [List.length_map, List.length_range]
          omega),
        List.getElem_map, List.getElem_range, if_pos hj]
    · intro j hjN hjL
      rw [List.length_map, List.length_range] at hjL
      rw [List.getD_eq_getElem _ _ (by rw [List.length_map, List.length_range]; exact hjL),
        List.getElem_map, List.getElem_range, if_neg (by omega)]
  · intro r c
    show (if pad ≤ r ∧ r < pad + _ ∧ pad ≤ c ∧ c < pad + _ then _ else ((0 : ℕ), 0, 0)) = _
    split
    · rfl
    · rfl
  · intro im hitems hnone
    subst hitems
    subst hnone
    exact mosaic_single im scale pad htW htH

/-- C2 witness: three 2 × 3 images at scale 1, pad 1, grid width 2: a
2-row, 2-column mosaic of 4 × 5 padded tiles, so 8 × 10. -/
theorem C2_witness :
    ∃ M, mosaic [Image.zeros 2 3, Image.zeros 2 3, Image.zeros 2 3] 1 1 (some 2) = .ok M ∧
      M.H = 8 ∧ M.W = 10 := by
  obtain ⟨⟨M, hM, hH, hW⟩, -, -, -, -, -⟩ := C2_mosaic_dimensions
    [Image.zeros 2 3, Image.zeros 2 3, Image.zeros 2 3] 1 1 (some 2)
    (by simp)
    (by norm_num [mosaicGridWidth])
    (by rw [mul_one, truncQ_natCast, Int.toNat_natCast]; decide)
    (by rw [mul_one, truncQ_natCast, Int.toNat_natCast]; decide)
  refine ⟨M, hM, ?_, ?_⟩
  · rw [hH, mul_one, truncQ_natCast, Int.toNat_natCast,
      show mosaicGridWidth (some 2) [Image.zeros 2 3, Image.zeros 2 3,
        Image.zeros 2 3].length = ((2 : ℕ) : ℤ) from by norm_num [mosaicGridWidth],
      mosaicGridHeight_eval 2 _ (by norm_num)]
    decide
  · rw [hW, mul_one, truncQ_natCast, Int.toNat_natCast,
      show mosaicGridWidth (some 2) [Image.zeros 2 3, Image.zeros 2 3,
        Image.zeros 2 3].length = ((2 : ℕ) : ℤ) from by norm_num [mosaicGridWidth]]
    decide

/-- C6 (amended): the empty input list always fails the precondition
assert; a grid width of 0 is falsy in Python, so it is replaced by the
default `ceil(sqrt(N))` and behaves exactly like an omitted grid width
(no failure); a negative grid width always fails (the row slicing
`range(0, len, grid_width)` is empty, so `hstack[0]` raises). -/
theorem C6_mosaic_error_cases :
    ∀ (items : List Image) (scale : ℚ) (pad : ℕ) (gwOpt : Option ℤ) (g : ℤ),
    (mosaic [] scale pad gwOpt = .error "No items to mosaic!") ∧
    (mosaic items scale pad (some 0) = mosaic items scale pad none) ∧
    (g < 0 → ∃ e, mosaic items scale pad (some g) = .error e) := by
  intro items scale pad gwOpt g
  refine ⟨rfl, rfl, ?_⟩
  · intro hg
    by_cases hlen : items.length = 0
    · refine ⟨"No items to mosaic!", ?_⟩
      unfold mosaic
      rw [if_pos hlen]
    · have hgwg : mosaicGridWidth (some g) items.length = g := by
        show (if g = 0 then ((ceilSqrtNat items.length : ℕ) : ℤ) else g) = g
        rw [if_neg (by omega)]
      unfold mosaic
      rw [if_neg hlen]
      dsimp only
      rw [hgwg]
      cases htiles : mosaicTiles items (truncQ ((items.headI.W : ℚ) * scale)).toNat
          (truncQ ((items.headI.H : ℚ) * scale)).toNat
          (g * mosaicGridHeight g items.length).toNat with
      | error e => exact ⟨e, rfl⟩
      | ok tiles =>
        refine ⟨"IndexError: list index out of range", ?_⟩
        dsimp only
        unfold mosaicRows
        rw [pySliceStarts_nonpos _ g (le_of_lt hg)]
        rfl

/-- C6 counterexample: with one image and `grid_width = 0`, the call
succeeds (Python treats 0 as falsy and uses the default grid width), so
"fails for non-positive grid_width including zero" is false at zero. -/
theorem C6_counterexample :
    exceptIsOk (mosaic [Image.zeros 2 2] 1 1 (some 0)) = true := by
  obtain ⟨M, hM, -, -⟩ := mosaic_ok [Image.zeros 2 2] 1 1 (some 0)
    (by simp)
    (by
      rw [show mosaicGridWidth (some 0) [Image.zeros 2 2].length =
          ((ceilSqrtNat 1 : ℕ) : ℤ) from rfl,
        show ceilSqrtNat 1 = 1 from by unfold ceilSqrtNat; rw [Nat.sqrt_one]; norm_num,
        Nat.cast_one]
      norm_num)
    (by rw [mul_one, truncQ_natCast, Int.toNat_natCast]; decide)
    (by rw [mul_one, truncQ_natCast, Int.toNat_natCast]; decide)
  rw [hM]
  rfl

/-- C6 witness: the amended statement at concrete inputs: empty input
fails, grid width 0 equals the default call, grid width -1 fails. -/
theorem C6_witness :
    (mosaic [] 1 1 none = .error "No items to mosaic!") ∧
    (mosaic [Image.zeros 2 2] 1 1 (some 0) = mosaic [Image.zeros 2 2] 1 1 none) ∧
    (∃ e, mosaic [Image.zeros 2 2] 1 1 (some (-1)) = .error e) := by
  have h := C6_mosaic_error_cases [Image.zeros 2 2] 1 1 none (-1)
  exact ⟨h.1, h.2.1, h.2.2 (by decide)⟩

end DGPViz
